import Mathlib

/-!
# Forward inference of the fixed-topology CNN (`cnn_opencl.c`)

A shallow embedding of the CPU layer kernels and of the pipeline orchestrator
of `cnn_opencl.c`, and the properties proved about them.  The values computed
are modelled by the kernels and by `cnn`; the fixed topology is also given as
data (`cnn_stages`, `cnn_alloc`), with a proof that running the table is `cnn`;
the index expressions are modelled by the `*_in_bounds` checks; and the control
flow of the host routines around allocation, device calls and the kernel source
file by `cnn_host`, `pooling_layer_calls`, `cnn_init_calls` and `GetSourceCode`.

Modelling conventions.

* A `float *` is a view of memory from the pointed-to element onwards: a total
  function `Nat → α` (`Buf α`).  Pointer arithmetic `p + off` is `shift p off`;
  a store through a pointer is `Function.update`.  A callee that writes through
  an offset pointer returns the new contents of its view, and the caller puts
  them back into the enclosing buffer with `unshift`.  Distinct C buffers are
  distinct values, so no two of them alias.
* `float` arithmetic is exact arithmetic in a linear ordered field `α`
  (the rationals for evaluation, the reals for the statements about `exp`).
  The C library `exp` is a parameter of `softmax`.
* `int` counters and sizes that only take non-negative values are `Nat`; the
  tap coordinates `i + k - 1`, which can be `-1`, are `Int`.  Signed overflow
  is undefined in C, so the integers are unbounded.
* A counted `for` loop is `loop`: the body is run for `i = 0, 1, …, n - 1`.
-/

namespace CNN

/-- A `float *`: the memory seen from the pointed-to element onwards. -/
abbrev Buf (α : Type) : Type := Nat → α

/-- The loop `for (i = 0; i < n; i++) s = body i s`. -/
def loop {σ : Type} (body : Nat → σ → σ) : Nat → σ → σ
  | 0, s => s
  | n + 1, s => body n (loop body n s)

/-- The loop `for (i = lo; i < hi; i++) s = body i s`. -/
def loopFrom {σ : Type} (lo hi : Nat) (body : Nat → σ → σ) (s : σ) : σ :=
  loop (fun i => body (lo + i)) (hi - lo) s

/-- Pointer arithmetic `p + off`. -/
def shift {α : Type} (p : Buf α) (off : Nat) : Buf α := fun q => p (off + q)

/-- The buffer `p` after a callee that was handed `p + off` left `view` there. -/
def unshift {α : Type} (p : Buf α) (off : Nat) (view : Buf α) : Buf α :=
  fun q => if off ≤ q then view (q - off) else p q

/-- The call `memset(p, 0, sizeof(float) * n)`. -/
def memset_zero {α : Type} [Zero α] (p : Buf α) (n : Nat) : Buf α :=
  fun q => if q < n then 0 else p q

/-- Two buffers hold the same first `n` floats. -/
def agree {α : Type} (n : Nat) (a b : Buf α) : Prop := ∀ p, p < n → a p = b p

instance {α : Type} [DecidableEq α] (n : Nat) (a b : Buf α) : Decidable (agree n a b) :=
  inferInstanceAs (Decidable (∀ p, p < n → a p = b p))

section Kernels

variable {α : Type} [LinearOrderedField α]

/-- The macro `ReLU(x) (((x)>0)?(x):0)`. -/
def ReLU (x : α) : α := if x > 0 then x else 0

/-- The function `convolution3x3(input, output, filter, N)`; the result is the
new contents of `output`. -/
def convolution3x3 (input output filter : Buf α) (N : Nat) : Buf α :=
  loop (fun i output =>
    loop (fun j output =>
      let sum : α :=
        loop (fun k sum =>
          loop (fun l sum =>
            let x : Int := (i : Int) + (k : Int) - 1
            let y : Int := (j : Int) + (l : Int) - 1
            if x ≥ 0 ∧ x < (N : Int) ∧ y ≥ 0 ∧ y < (N : Int) then
              sum + input (x * (N : Int) + y).toNat * filter (k * 3 + l)
            else sum) 3 sum) 3 0
      Function.update output (i * N + j) (output (i * N + j) + sum)) N output) N output

/-- The function `convolution_layer(inputs, outputs, filters, biases, D2, D1, N)`;
the result is the new contents of `outputs`. -/
def convolution_layer (inputs outputs filters biases : Buf α) (D2 D1 N : Nat) : Buf α :=
  let outputs := memset_zero outputs (N * N * D2)
  let outputs :=
    loop (fun j outputs =>
      loop (fun i outputs =>
        let input := shift inputs (N * N * i)
        let output := shift outputs (N * N * j)
        let filter := shift filters (3 * 3 * (j * D1 + i))
        unshift outputs (N * N * j) (convolution3x3 input output filter N)) D1 outputs) D2 outputs
  loop (fun i outputs =>
    let output := shift outputs (N * N * i)
    let bias := biases i
    unshift outputs (N * N * i)
      (loop (fun j output => Function.update output j (ReLU (output j + bias))) (N * N) output))
    D2 outputs

/-- The function `fc_layer(input_neuron, output_neuron, weights, biases, M, N)`;
the result is the new contents of `output_neuron`. -/
def fc_layer (input_neuron output_neuron weights biases : Buf α) (M N : Nat) : Buf α :=
  loop (fun j output_neuron =>
    let sum : α := loop (fun i sum => sum + input_neuron i * weights (j * N + i)) N 0
    let sum := sum + biases j
    Function.update output_neuron j (ReLU sum)) M output_neuron

/-- The running maximum computed by the first loop of `softmax`. -/
def softmax_max (output : Buf α) (N : Nat) : α :=
  loopFrom 1 N (fun i max => if output i > max then output i else max) (output 0)

/-- The normaliser computed by the second loop of `softmax`. -/
def softmax_sum (exp : α → α) (output : Buf α) (N : Nat) : α :=
  let max := softmax_max output N
  loop (fun i sum => sum + exp (output i - max)) N 0

/-- The function `softmax(output, N)`; the result is the new contents of
`output`.  `exp` is the C library function. -/
def softmax (exp : α → α) (output : Buf α) (N : Nat) : Buf α :=
  let max := softmax_max output N
  let sum := softmax_sum exp output N
  loop (fun i output => Function.update output i (exp (output i - max) / sum)) N output

/-- The state `(maxid, maxval)` of `find_max` after its loop. -/
def find_max_loop (fc : Buf α) (N : Nat) : Nat × α :=
  loop (fun i (s : Nat × α) => if s.2 < fc i then (i, fc i) else s) N (0, 0)

/-- The function `find_max(fc, N)`. -/
def find_max (fc : Buf α) (N : Nat) : Nat := (find_max_loop fc N).1

/-- The function `pooling_layer(inputs, outputs, D, N)`; the result is the new
contents of `outputs`.  `clCreateBuffer` with `CL_MEM_COPY_HOST_PTR` uploads the
first `D * (N * 2) * (N * 2)` floats of `inputs` (the device buffer holds nothing
else, cells past its end read as `0`), the dispatch leaves `kernel D N buf_input`
in the device output buffer, and the blocking `clEnqueueReadBuffer` copies its
first `D * N * N` floats into `outputs`.  Every device call is taken to succeed.

The OpenCL kernel `pooling` of `pooling_kernel.cl` is not part of the sources; it
is the parameter `kernel`, a function from the uploaded tensor to the contents it
leaves in the device output buffer. -/
def pooling_layer (kernel : Nat → Nat → Buf α → Buf α) (inputs outputs : Buf α)
    (D N : Nat) : Buf α :=
  let buf_input : Buf α := fun q => if q < D * (N * 2) * (N * 2) then inputs q else 0
  let buf_output : Buf α := kernel D N buf_input
  fun q => if q < D * N * N then buf_output q else outputs q

/-- Modelled from the spec: the OpenCL kernel `pooling` of `pooling_kernel.cl`,
which is not part of the sources, as 2×2 max-pooling of a `(D, 2N, 2N)` tensor
into a `(D, N, N)` tensor. -/
def max_pooling (_D N : Nat) (input : Buf α) : Buf α := fun q =>
  let d := q / (N * N)
  let x := q % (N * N) / N
  let y := q % (N * N) % N
  let tap : Nat → Nat → α := fun dx dy =>
    input (d * (2 * N) * (2 * N) + (2 * x + dx) * (2 * N) + (2 * y + dy))
  max (max (tap 0 0) (tap 0 1)) (max (tap 1 0) (tap 1 1))

/-- The intermediate activation buffers that `cnn` allocates once and reuses
for every image. -/
structure Layers (α : Type) where
  c1_1 : Buf α
  c1_2 : Buf α
  p1 : Buf α
  c2_1 : Buf α
  c2_2 : Buf α
  p2 : Buf α
  c3_1 : Buf α
  c3_2 : Buf α
  c3_3 : Buf α
  p3 : Buf α
  c4_1 : Buf α
  c4_2 : Buf α
  c4_3 : Buf α
  p4 : Buf α
  c5_1 : Buf α
  c5_2 : Buf α
  c5_3 : Buf α
  p5 : Buf α
  fc1 : Buf α
  fc2 : Buf α
  fc3 : Buf α

/-- The memory that the image loop of `cnn` writes: the intermediate buffers and
the two output arrays of the caller. -/
structure State (α : Type) where
  layers : Layers α
  labels : Nat → Int
  confidences : Buf α

/-- The stage calls of one iteration of the image loop of `cnn`, from the first
`convolution_layer` to `softmax`; the result is the new contents of the
intermediate buffers. -/
def cnn_forward (exp : α → α) (kernel : Nat → Nat → Buf α → Buf α) (network : Nat → Buf α)
    (image : Buf α) (b : Layers α) : Layers α :=
  let w1_1 := network 0; let b1_1 := network 1
  let w1_2 := network 2; let b1_2 := network 3
  let w2_1 := network 4; let b2_1 := network 5
  let w2_2 := network 6; let b2_2 := network 7
  let w3_1 := network 8; let b3_1 := network 9
  let w3_2 := network 10; let b3_2 := network 11
  let w3_3 := network 12; let b3_3 := network 13
  let w4_1 := network 14; let b4_1 := network 15
  let w4_2 := network 16; let b4_2 := network 17
  let w4_3 := network 18; let b4_3 := network 19
  let w5_1 := network 20; let b5_1 := network 21
  let w5_2 := network 22; let b5_2 := network 23
  let w5_3 := network 24; let b5_3 := network 25
  let w1 := network 26; let b1 := network 27
  let w2 := network 28; let b2 := network 29
  let w3 := network 30; let b3 := network 31
  let c1_1 := convolution_layer image b.c1_1 w1_1 b1_1 64 3 32
  let c1_2 := convolution_layer c1_1 b.c1_2 w1_2 b1_2 64 64 32
  let p1 := pooling_layer kernel c1_2 b.p1 64 16
  let c2_1 := convolution_layer p1 b.c2_1 w2_1 b2_1 128 64 16
  let c2_2 := convolution_layer c2_1 b.c2_2 w2_2 b2_2 128 128 16
  let p2 := pooling_layer kernel c2_2 b.p2 128 8
  let c3_1 := convolution_layer p2 b.c3_1 w3_1 b3_1 256 128 8
  let c3_2 := convolution_layer c3_1 b.c3_2 w3_2 b3_2 256 256 8
  let c3_3 := convolution_layer c3_2 b.c3_3 w3_3 b3_3 256 256 8
  let p3 := pooling_layer kernel c3_3 b.p3 256 4
  let c4_1 := convolution_layer p3 b.c4_1 w4_1 b4_1 512 256 4
  let c4_2 := convolution_layer c4_1 b.c4_2 w4_2 b4_2 512 512 4
  let c4_3 := convolution_layer c4_2 b.c4_3 w4_3 b4_3 512 512 4
  let p4 := pooling_layer kernel c4_3 b.p4 512 2
  let c5_1 := convolution_layer p4 b.c5_1 w5_1 b5_1 512 512 2
  let c5_2 := convolution_layer c5_1 b.c5_2 w5_2 b5_2 512 512 2
  let c5_3 := convolution_layer c5_2 b.c5_3 w5_3 b5_3 512 512 2
  let p5 := pooling_layer kernel c5_3 b.p5 512 1
  let fc1 := fc_layer p5 b.fc1 w1 b1 512 512
  let fc2 := fc_layer fc1 b.fc2 w2 b2 512 512
  let fc3 := fc_layer fc2 b.fc3 w3 b3 10 512
  let fc3 := softmax exp fc3 10
  { c1_1 := c1_1, c1_2 := c1_2, p1 := p1, c2_1 := c2_1, c2_2 := c2_2, p2 := p2,
    c3_1 := c3_1, c3_2 := c3_2, c3_3 := c3_3, p3 := p3,
    c4_1 := c4_1, c4_2 := c4_2, c4_3 := c4_3, p4 := p4,
    c5_1 := c5_1, c5_2 := c5_2, c5_3 := c5_3, p5 := p5,
    fc1 := fc1, fc2 := fc2, fc3 := fc3 }

/-- The body of the image loop of `cnn` for image `i`. -/
def cnn_image (exp : α → α) (kernel : Nat → Nat → Buf α → Buf α) (images : Buf α)
    (network : Nat → Buf α) (i : Nat) (s : State α) : State α :=
  let image := shift images (i * 3 * 32 * 32)
  let layers := cnn_forward exp kernel network image s.layers
  let labels := Function.update s.labels i ((find_max layers.fc3 10 : Nat) : Int)
  let confidences := Function.update s.confidences i (layers.fc3 (labels i).toNat)
  { layers := layers, labels := labels, confidences := confidences }

/-- The function `cnn(images, network, labels, confidences, num_images)` up to the
end of its image loop.  `layers` is what the freshly allocated intermediate
buffers hold, `labels` and `confidences` what the arrays of the caller hold,
before the call; the result is the memory when the loop exits. -/
def cnn (exp : α → α) (kernel : Nat → Nat → Buf α → Buf α) (images : Buf α)
    (network : Nat → Buf α) (layers : Layers α) (labels : Nat → Int) (confidences : Buf α)
    (num_images : Nat) : State α :=
  loop (cnn_image exp kernel images network) num_images
    { layers := layers, labels := labels, confidences := confidences }

/-- The identity filter bank for `D` channels: filter `(j, i)` has `1` at its
centre tap and `0` elsewhere when `i = j`, and is all zero when `i ≠ j`. -/
def identity_filters (D : Nat) : Buf α :=
  fun q => if q % 9 = 4 ∧ q / 9 / D = q / 9 % D then 1 else 0

/-- The scan of `find_max` with the running maximum initialised to negative
infinity (`⊥`) instead of `0`: the reference argmax of the specification. -/
def find_max_neg_inf (fc : Buf α) (N : Nat) : Nat :=
  (loop (fun i (s : Nat × WithBot α) =>
    if s.2 < (fc i : WithBot α) then (i, (fc i : WithBot α)) else s) N (0, ⊥)).1

/-- Intermediate buffers that all hold the same buffer `z`. -/
def layers_all (z : Buf α) : Layers α :=
  { c1_1 := z, c1_2 := z, p1 := z, c2_1 := z, c2_2 := z, p2 := z,
    c3_1 := z, c3_2 := z, c3_3 := z, p3 := z, c4_1 := z, c4_2 := z, c4_3 := z, p4 := z,
    c5_1 := z, c5_2 := z, c5_3 := z, p5 := z, fc1 := z, fc2 := z, fc3 := z }

/-! ### The fixed topology of `cnn` as data -/

/-- The buffers that the stage calls of `cnn` read and write: the image slice
`images + i * 3 * 32 * 32` and the 21 buffers obtained from `alloc_layer`, in the
order of their allocation. -/
inductive BufId
  | image | c1_1 | c1_2 | p1 | c2_1 | c2_2 | p2 | c3_1 | c3_2 | c3_3 | p3
  | c4_1 | c4_2 | c4_3 | p4 | c5_1 | c5_2 | c5_3 | p5 | fc1 | fc2 | fc3
  deriving DecidableEq

/-- The number of floats behind each buffer: the argument of its `alloc_layer`
call in `cnn`, and `3 * 32 * 32` for the image slice. -/
def cnn_alloc : BufId → Nat
  | .image => 3 * 32 * 32
  | .c1_1 => 64 * 32 * 32
  | .c1_2 => 64 * 32 * 32
  | .p1 => 64 * 16 * 16
  | .c2_1 => 128 * 16 * 16
  | .c2_2 => 128 * 16 * 16
  | .p2 => 128 * 8 * 8
  | .c3_1 => 256 * 8 * 8
  | .c3_2 => 256 * 8 * 8
  | .c3_3 => 256 * 8 * 8
  | .p3 => 256 * 4 * 4
  | .c4_1 => 512 * 4 * 4
  | .c4_2 => 512 * 4 * 4
  | .c4_3 => 512 * 4 * 4
  | .p4 => 512 * 2 * 2
  | .c5_1 => 512 * 2 * 2
  | .c5_2 => 512 * 2 * 2
  | .c5_3 => 512 * 2 * 2
  | .p5 => 512 * 1 * 1
  | .fc1 => 512
  | .fc2 => 512
  | .fc3 => 10

/-- A stage call of the image loop of `cnn`, with its arguments in the order of
the C call; a weight or bias argument is the index of its tensor in `network`. -/
inductive Stage
  | convolution_layer (inputs outputs : BufId) (filters biases : Nat) (D2 D1 N : Nat)
  | pooling_layer (inputs outputs : BufId) (D N : Nat)
  | fc_layer (input_neuron output_neuron : BufId) (weights biases : Nat) (M N : Nat)
  | softmax (output : BufId) (N : Nat)
  | find_max (fc : BufId) (N : Nat)
  deriving DecidableEq

/-- The stage calls of one iteration of the image loop of `cnn`, in order. -/
def cnn_stages : List Stage :=
  [ .convolution_layer .image .c1_1 0 1 64 3 32,
    .convolution_layer .c1_1 .c1_2 2 3 64 64 32,
    .pooling_layer .c1_2 .p1 64 16,
    .convolution_layer .p1 .c2_1 4 5 128 64 16,
    .convolution_layer .c2_1 .c2_2 6 7 128 128 16,
    .pooling_layer .c2_2 .p2 128 8,
    .convolution_layer .p2 .c3_1 8 9 256 128 8,
    .convolution_layer .c3_1 .c3_2 10 11 256 256 8,
    .convolution_layer .c3_2 .c3_3 12 13 256 256 8,
    .pooling_layer .c3_3 .p3 256 4,
    .convolution_layer .p3 .c4_1 14 15 512 256 4,
    .convolution_layer .c4_1 .c4_2 16 17 512 512 4,
    .convolution_layer .c4_2 .c4_3 18 19 512 512 4,
    .pooling_layer .c4_3 .p4 512 2,
    .convolution_layer .p4 .c5_1 20 21 512 512 2,
    .convolution_layer .c5_1 .c5_2 22 23 512 512 2,
    .convolution_layer .c5_2 .c5_3 24 25 512 512 2,
    .pooling_layer .c5_3 .p5 512 1,
    .fc_layer .p5 .fc1 26 27 512 512,
    .fc_layer .fc1 .fc2 28 29 512 512,
    .fc_layer .fc2 .fc3 30 31 10 512,
    .softmax .fc3 10,
    .find_max .fc3 10 ]

/-- The buffer a stage reads its input from. -/
def Stage.src : Stage → BufId
  | .convolution_layer inputs _ _ _ _ _ _ => inputs
  | .pooling_layer inputs _ _ _ => inputs
  | .fc_layer input_neuron _ _ _ _ _ => input_neuron
  | .softmax output _ => output
  | .find_max fc _ => fc

/-- The buffer a stage writes its output to (`find_max` writes none: it returns
the label). -/
def Stage.dst : Stage → Option BufId
  | .convolution_layer _ outputs _ _ _ _ _ => some outputs
  | .pooling_layer _ outputs _ _ => some outputs
  | .fc_layer _ output_neuron _ _ _ _ => some output_neuron
  | .softmax output _ => some output
  | .find_max _ _ => none

/-- The network entries bound to a learnable stage: `(weights, biases)`. -/
def Stage.binding : Stage → Option (Nat × Nat)
  | .convolution_layer _ _ filters biases _ _ _ => some (filters, biases)
  | .fc_layer _ _ weights biases _ _ => some (weights, biases)
  | _ => none

/-- The arguments `(D, N)` of a pooling stage. -/
def Stage.pooling_args : Stage → Option (Nat × Nat)
  | .pooling_layer _ _ D N => some (D, N)
  | _ => none

/-- The buffer `id` among the image slice and the intermediate buffers. -/
def Layers.get (b : Layers α) (image : Buf α) : BufId → Buf α
  | .image => image
  | .c1_1 => b.c1_1 | .c1_2 => b.c1_2 | .p1 => b.p1
  | .c2_1 => b.c2_1 | .c2_2 => b.c2_2 | .p2 => b.p2
  | .c3_1 => b.c3_1 | .c3_2 => b.c3_2 | .c3_3 => b.c3_3 | .p3 => b.p3
  | .c4_1 => b.c4_1 | .c4_2 => b.c4_2 | .c4_3 => b.c4_3 | .p4 => b.p4
  | .c5_1 => b.c5_1 | .c5_2 => b.c5_2 | .c5_3 => b.c5_3 | .p5 => b.p5
  | .fc1 => b.fc1 | .fc2 => b.fc2 | .fc3 => b.fc3

/-- The intermediate buffers after buffer `id` received the contents `v` (no
stage writes the image). -/
def Layers.set (b : Layers α) (id : BufId) (v : Buf α) : Layers α :=
  match id with
  | .image => b
  | .c1_1 => { b with c1_1 := v } | .c1_2 => { b with c1_2 := v } | .p1 => { b with p1 := v }
  | .c2_1 => { b with c2_1 := v } | .c2_2 => { b with c2_2 := v } | .p2 => { b with p2 := v }
  | .c3_1 => { b with c3_1 := v } | .c3_2 => { b with c3_2 := v }
  | .c3_3 => { b with c3_3 := v } | .p3 => { b with p3 := v }
  | .c4_1 => { b with c4_1 := v } | .c4_2 => { b with c4_2 := v }
  | .c4_3 => { b with c4_3 := v } | .p4 => { b with p4 := v }
  | .c5_1 => { b with c5_1 := v } | .c5_2 => { b with c5_2 := v }
  | .c5_3 => { b with c5_3 := v } | .p5 => { b with p5 := v }
  | .fc1 => { b with fc1 := v } | .fc2 => { b with fc2 := v } | .fc3 => { b with fc3 := v }

/-- The effect of one stage call on the intermediate buffers and on the label. -/
def run_stage (exp : α → α) (kernel : Nat → Nat → Buf α → Buf α) (network : Nat → Buf α)
    (image : Buf α) (st : Stage) (s : Layers α × Nat) : Layers α × Nat :=
  match st with
  | .convolution_layer inputs outputs filters biases D2 D1 N =>
    (s.1.set outputs (convolution_layer (s.1.get image inputs) (s.1.get image outputs)
      (network filters) (network biases) D2 D1 N), s.2)
  | .pooling_layer inputs outputs D N =>
    (s.1.set outputs (pooling_layer kernel (s.1.get image inputs) (s.1.get image outputs) D N),
      s.2)
  | .fc_layer input_neuron output_neuron weights biases M N =>
    (s.1.set output_neuron (fc_layer (s.1.get image input_neuron)
      (s.1.get image output_neuron) (network weights) (network biases) M N), s.2)
  | .softmax output N => (s.1.set output (softmax exp (s.1.get image output) N), s.2)
  | .find_max fc N => (s.1, find_max (s.1.get image fc) N)

/-- The effect of a sequence of stage calls. -/
def run_stages (exp : α → α) (kernel : Nat → Nat → Buf α → Buf α) (network : Nat → Buf α)
    (image : Buf α) (stages : List Stage) (s : Layers α × Nat) : Layers α × Nat :=
  stages.foldl (fun s st => run_stage exp kernel network image st s) s

/-! ### Bounds-checked indexing

For each kernel, whether every index it uses on its input and output buffers is
inside them: the loops and index expressions of the kernel, with every access
`p[e]` replaced by the check `0 ≤ e < size of p`.  The pointer `p + off` has
`size of p - off` floats behind it.  The weight and bias tensors of `network`,
whose sizes the source does not state, are not checked. -/

/-- The bounds checks of `convolution3x3(input, output, filter, N)`. -/
def convolution3x3_in_bounds (input_size output_size N : Nat) : Bool :=
  loop (fun i ok =>
    loop (fun j ok =>
      let ok :=
        loop (fun k ok =>
          loop (fun l ok =>
            let x : Int := (i : Int) + (k : Int) - 1
            let y : Int := (j : Int) + (l : Int) - 1
            if x ≥ 0 ∧ x < (N : Int) ∧ y ≥ 0 ∧ y < (N : Int) then
              ok && decide (0 ≤ x * (N : Int) + y ∧ x * (N : Int) + y < (input_size : Int))
            else ok) 3 ok) 3 ok
      ok && decide (i * N + j < output_size)) N ok) N true

/-- The bounds checks of `convolution_layer(inputs, outputs, filters, biases, D2, D1, N)`. -/
def convolution_layer_in_bounds (inputs_size outputs_size D2 D1 N : Nat) : Bool :=
  let ok := decide (N * N * D2 ≤ outputs_size)
  let ok :=
    loop (fun j ok =>
      loop (fun i ok =>
        ok && convolution3x3_in_bounds (inputs_size - N * N * i) (outputs_size - N * N * j) N)
        D1 ok) D2 ok
  loop (fun i ok =>
    loop (fun j ok => ok && decide (j < outputs_size - N * N * i)) (N * N) ok) D2 ok

/-- The bounds checks of `fc_layer(input_neuron, output_neuron, weights, biases, M, N)`. -/
def fc_layer_in_bounds (input_size output_size M N : Nat) : Bool :=
  loop (fun j ok =>
    let ok := loop (fun i ok => ok && decide (i < input_size)) N ok
    ok && decide (j < output_size)) M true

/-- The bounds checks of `softmax(output, N)`. -/
def softmax_in_bounds (output_size N : Nat) : Bool :=
  let ok := decide (0 < output_size)
  let ok := loopFrom 1 N (fun i ok => ok && decide (i < output_size)) ok
  let ok := loop (fun i ok => ok && decide (i < output_size)) N ok
  loop (fun i ok => ok && decide (i < output_size)) N ok

/-- The bounds checks of `find_max(fc, N)`. -/
def find_max_in_bounds (fc_size N : Nat) : Bool :=
  loop (fun i ok => ok && decide (i < fc_size)) N true

/-- The bounds checks of the host side of `pooling_layer(inputs, outputs, D, N)`:
the upload of `D * (N * 2) * (N * 2)` floats from `inputs` and the read-back of
`D * N * N` floats into `outputs`. -/
def pooling_layer_in_bounds (inputs_size outputs_size D N : Nat) : Bool :=
  decide (D * (N * 2) * (N * 2) ≤ inputs_size) && decide (D * N * N ≤ outputs_size)

/-- The bounds checks of a stage call, `size` giving the number of floats behind
each buffer. -/
def Stage.in_bounds (size : BufId → Nat) : Stage → Bool
  | .convolution_layer inputs outputs _ _ D2 D1 N =>
    convolution_layer_in_bounds (size inputs) (size outputs) D2 D1 N
  | .pooling_layer inputs outputs D N =>
    pooling_layer_in_bounds (size inputs) (size outputs) D N
  | .fc_layer input_neuron output_neuron _ _ M N =>
    fc_layer_in_bounds (size input_neuron) (size output_neuron) M N
  | .softmax output N => softmax_in_bounds (size output) N
  | .find_max fc N => find_max_in_bounds (size fc) N

/-- The number of floats a stage reads from its input buffer. -/
def Stage.reads : Stage → Nat
  | .convolution_layer _ _ _ _ _ D1 N => D1 * N * N
  | .pooling_layer _ _ D N => D * (2 * N) * (2 * N)
  | .fc_layer _ _ _ _ _ N => N
  | .softmax _ N => N
  | .find_max _ N => N

/-- The number of floats a stage writes to its output buffer. -/
def Stage.writes : Stage → Nat
  | .convolution_layer _ _ _ _ D2 _ N => D2 * N * N
  | .pooling_layer _ _ D N => D * N * N
  | .fc_layer _ _ _ _ M _ => M
  | .softmax _ N => N
  | .find_max _ _ => 0

/-- What `pooling_layer(inputs, outputs, D, N)` asks of the device: the number of
floats of the input buffer it creates and fills from `inputs`, the number of
floats it reads back into `outputs`, and the arguments `work_dim`, `global_size`
and `local_size` of its `clEnqueueNDRangeKernel` call. -/
structure Dispatch where
  upload_floats : Nat
  readback_floats : Nat
  work_dim : Nat
  global_size : List Nat
  local_size : List Nat
  deriving DecidableEq

/-- The device requests of `pooling_layer(inputs, outputs, D, N)`. -/
def pooling_layer_dispatch (D N : Nat) : Dispatch :=
  { upload_floats := D * (N * 2) * (N * 2)
    readback_floats := D * N * N
    work_dim := 3
    global_size := [D, N * 2, N * 2]
    local_size := [64, 1, 1] }

/-- Whether every dimension of a stage call is at least `1`. -/
def Stage.positive : Stage → Bool
  | .convolution_layer _ _ _ _ D2 D1 N => decide (1 ≤ D2 ∧ 1 ≤ D1 ∧ 1 ≤ N)
  | .pooling_layer _ _ D N => decide (1 ≤ D ∧ 1 ≤ N)
  | .fc_layer _ _ _ _ M N => decide (1 ≤ M ∧ 1 ≤ N)
  | .softmax _ N => decide (1 ≤ N)
  | .find_max _ N => decide (1 ≤ N)

/-! ### Host control flow: allocation, device calls, opening the kernel source

These models keep the control flow of the host routines and drop the data: a
pointer is `none` (null) or `some` address, a device call returns a status code,
and a run ends by returning or by `exit(EXIT_FAILURE)` after a diagnostic. -/

/-- The function `alloc_layer(n)`: it returns what `malloc(n * sizeof(float))`
returns, null included.  `malloc` is the allocator as seen by this call. -/
def alloc_layer (malloc : Nat → Option Nat) (n : Nat) : Option Nat :=
  malloc (n * 4)

/-- How a run of `cnn` ends, as far as its buffers are concerned. -/
inductive HostRun
  | returned
  | exit_failure
  | null_access (st : Stage)
  deriving DecidableEq

/-- The pointers that `cnn` holds after its 21 `alloc_layer` calls (`heap id` is
the allocator as seen by the call that allocates buffer `id`), and the pointer
`images` of the caller. -/
def cnn_pointers (heap : BufId → Nat → Option Nat) (images : Option Nat) :
    BufId → Option Nat
  | .image => images
  | id => alloc_layer (heap id) (cnn_alloc id)

/-- The function `cnn` as far as null buffers are concerned: the 21 results of
`alloc_layer` are stored without a test, then the image loop calls the stages in
order; the first stage call that is handed a null buffer accesses it.  No path
prints a diagnostic and exits. -/
def cnn_host (heap : BufId → Nat → Option Nat) (images : Option Nat) (num_images : Nat) :
    HostRun :=
  let ptr := cnn_pointers heap images
  if num_images = 0 then HostRun.returned
  else
    match cnn_stages.find? (fun st =>
      (ptr st.src).isNone || (match st.dst with
        | some d => (ptr d).isNone
        | none => false)) with
    | some st => HostRun.null_access st
    | none => HostRun.returned

/-- The calls of the OpenCL API made by `cnn_init` and `pooling_layer`. -/
inductive ClCall
  | clGetPlatformIDs
  | clGetDeviceIDs
  | clCreateContext
  | clCreateCommandQueueWithProperties
  | clCreateProgramWithSource
  | clBuildProgram
  | clGetProgramBuildInfo_size
  | clGetProgramBuildInfo_log
  | clCreateKernel
  | clCreateBuffer_input
  | clCreateBuffer_output
  | clSetKernelArg (arg_index : Nat)
  | clEnqueueNDRangeKernel
  | clEnqueueReadBuffer
  | clFinish
  | clReleaseMemObject_input
  | clReleaseMemObject_output
  deriving DecidableEq

/-- The status code `CL_SUCCESS`. -/
def CL_SUCCESS : Int := 0

/-- The status code `CL_BUILD_PROGRAM_FAILURE`. -/
def CL_BUILD_PROGRAM_FAILURE : Int := -11

/-- A run of a host routine that talks to the device: the device calls it made,
in order, and whether it ended in `exit(EXIT_FAILURE)` after a diagnostic rather
than by returning. -/
structure DeviceRun where
  made : List ClCall
  exited : Bool
  deriving DecidableEq

/-- The statements `err = c(...); CHECK_ERROR(err);` followed by `rest`. -/
def checked_call (status : ClCall → Int) (c : ClCall) (rest : DeviceRun) : DeviceRun :=
  if status c ≠ CL_SUCCESS then { made := [c], exited := true }
  else { made := c :: rest.made, exited := rest.exited }

/-- The statement `c(...);`, whose status code is discarded, followed by `rest`. -/
def unchecked_call (c : ClCall) (rest : DeviceRun) : DeviceRun :=
  { made := c :: rest.made, exited := rest.exited }

/-- The device calls of `pooling_layer`, `status c` being the code that call `c`
returns. -/
def pooling_layer_calls (status : ClCall → Int) : DeviceRun :=
  checked_call status .clCreateBuffer_input <|
  checked_call status .clCreateBuffer_output <|
  checked_call status (.clSetKernelArg 0) <|
  checked_call status (.clSetKernelArg 1) <|
  checked_call status (.clSetKernelArg 2) <|
  checked_call status (.clSetKernelArg 3) <|
  checked_call status .clEnqueueNDRangeKernel <|
  checked_call status .clEnqueueReadBuffer <|
  unchecked_call .clFinish <|
  unchecked_call .clReleaseMemObject_input <|
  unchecked_call .clReleaseMemObject_output <|
  { made := [], exited := false }

/-- The file and allocation operations of `GetSourceCode` after `_open`. -/
inductive FileOp
  | lseek (fd : Int)
  | malloc
  | read (fd : Int)
  | close (fd : Int)
  deriving DecidableEq

/-- A run of `GetSourceCode`: the operations performed after `_open`, whether
the "Failed to open" diagnostic was printed, and whether the run ended in
`exit(EXIT_FAILURE)`. -/
structure SourceRun where
  ops : List FileOp
  failed_to_open : Bool
  exited : Bool
  deriving DecidableEq

/-- The function `GetSourceCode`, `fd` being what `_open` returned and
`malloc_ok` whether the `malloc` of the macro `MALLOC` succeeds.  The test after
`_open` is `if (!fd)`. -/
def GetSourceCode (fd : Int) (malloc_ok : Bool) : SourceRun :=
  if fd = 0 then { ops := [], failed_to_open := true, exited := true }
  else if malloc_ok then
    { ops := [.lseek fd, .malloc, .lseek fd, .read fd, .close fd],
      failed_to_open := false, exited := false }
  else { ops := [.lseek fd, .malloc], failed_to_open := false, exited := true }

/-- The device calls of `cnn_init`, `status c` being the code that call `c`
returns, `fd` what `_open` returns in `GetSourceCode`, and `malloc_ok k` whether
the `k`-th `malloc` of the macro `MALLOC` succeeds. -/
def cnn_init_calls (status : ClCall → Int) (fd : Int) (malloc_ok : Nat → Bool) : DeviceRun :=
  checked_call status .clGetPlatformIDs <|
  checked_call status .clGetDeviceIDs <|
  checked_call status .clCreateContext <|
  checked_call status .clCreateCommandQueueWithProperties <|
  if (GetSourceCode fd (malloc_ok 0)).exited then { made := [], exited := true }
  else
    checked_call status .clCreateProgramWithSource <|
    if status .clBuildProgram = CL_BUILD_PROGRAM_FAILURE then
      if malloc_ok 1 then
        { made := [.clBuildProgram, .clGetProgramBuildInfo_size, .clGetProgramBuildInfo_log],
          exited := true }
      else { made := [.clBuildProgram, .clGetProgramBuildInfo_size], exited := true }
    else
      checked_call status .clBuildProgram <|
      checked_call status .clCreateKernel <|
      { made := [], exited := false }

/-- The scores `0, 1000, 2000, 0, …`. -/
def ex_scores : Buf ℚ := fun i => if i = 1 then 1000 else if i = 2 then 2000 else 0

/-- An exponential that underflows, standing for the C library `exp` on doubles:
it is `1` at `0`, at most `1` on the non-positive arguments, never negative, and
exactly `0` below `-745`, where the C library `exp` returns `0` as well (the
smallest positive double is about `exp(-744.4)`). -/
def ex_exp (x : ℚ) : ℚ :=
  if x < -745 then 0 else if x ≤ 0 then 1 / (1 - x) else 1 + x

/-! ### Concrete inputs -/

/-- The ramp `1, 2, 3, …`. -/
def ex_ramp : Buf ℚ := fun i => (i : ℚ) + 1

/-- The constant buffer. -/
def ex_const (c : ℚ) : Buf ℚ := fun _ => c

/-- The scores `-2, -1, -1, …`: the largest is negative and not at index 0. -/
def ex_negative : Buf ℚ := fun i => if i = 0 then -2 else -1

/-- The scores `2, 3, 0, 0, …`: the largest is positive, at index 1. -/
def ex_positive : Buf ℚ := fun i => if i = 0 then 2 else if i = 1 then 3 else 0

/-- Intermediate buffers that all hold the constant `c`. -/
def ex_layers (c : ℚ) : Layers ℚ :=
  { c1_1 := ex_const c, c1_2 := ex_const c, p1 := ex_const c,
    c2_1 := ex_const c, c2_2 := ex_const c, p2 := ex_const c,
    c3_1 := ex_const c, c3_2 := ex_const c, c3_3 := ex_const c, p3 := ex_const c,
    c4_1 := ex_const c, c4_2 := ex_const c, c4_3 := ex_const c, p4 := ex_const c,
    c5_1 := ex_const c, c5_2 := ex_const c, c5_3 := ex_const c, p5 := ex_const c,
    fc1 := ex_const c, fc2 := ex_const c, fc3 := ex_const c }

/-! ### Closed forms used in the statements -/

/-- The weighted sum of the in-bounds taps of the 3×3 window centred at
`(x, y)` of an `N × N` plane. -/
def tap_sum (input filter : Buf α) (N x y : Nat) : α :=
  ∑ k in Finset.range 3, ∑ l in Finset.range 3,
    if (x : Int) + (k : Int) - 1 ≥ 0 ∧ (x : Int) + (k : Int) - 1 < (N : Int)
        ∧ (y : Int) + (l : Int) - 1 ≥ 0 ∧ (y : Int) + (l : Int) - 1 < (N : Int) then
      input (((x : Int) + (k : Int) - 1) * (N : Int) + ((y : Int) + (l : Int) - 1)).toNat
        * filter (k * 3 + l)
    else 0

/-- The sum over the input channels that `convolution_layer` accumulates for
output channel `j` at `(x, y)`. -/
def conv_acc (inputs filters : Buf α) (D1 N j x y : Nat) : α :=
  ∑ i in Finset.range D1,
    tap_sum (shift inputs (N * N * i)) (shift filters (3 * 3 * (j * D1 + i))) N x y

end Kernels

end CNN


namespace CNN

/-! ## Loops -/

theorem loop_zero {σ : Type} (body : Nat → σ → σ) (s : σ) : loop body 0 s = s := rfl

theorem loop_succ {σ : Type} (body : Nat → σ → σ) (n : Nat) (s : σ) :
    loop body (n + 1) s = body n (loop body n s) := rfl

/-- A loop over buffers whose body changes every cell as a function of that
cell alone is, cell by cell, a loop over scalars. -/
theorem loop_pointwise {α : Type} (body : Nat → Buf α → Buf α) (G : Nat → Nat → α → α)
    (h : ∀ i m p, body i m p = G i p (m p)) (n : Nat) (m : Buf α) (p : Nat) :
    loop body n m p = loop (fun i v => G i p v) n (m p) := by
  induction n with
  | zero => rfl
  | succ n ih => rw [loop_succ, loop_succ, h, ih]

/-- An accumulation loop is a finite sum. -/
theorem loop_add {α : Type} [AddCommMonoid α] (f : Nat → α) (n : Nat) (s : α) :
    loop (fun i s => s + f i) n s = s + ∑ i in Finset.range n, f i := by
  induction n with
  | zero => simp [loop_zero]
  | succ n ih => rw [loop_succ, ih, Finset.sum_range_succ, add_assoc]

/-- A guarded accumulation loop is a finite sum of guarded terms. -/
theorem loop_add_ite {α : Type} [AddCommMonoid α] (c : Nat → Prop) [DecidablePred c]
    (f : Nat → α) (n : Nat) (s : α) :
    loop (fun i s => if c i then s + f i else s) n s
      = s + ∑ i in Finset.range n, if c i then f i else 0 := by
  have h : (fun i (s : α) => if c i then s + f i else s)
      = fun i s => s + (if c i then f i else 0) := by
    funext i s
    by_cases hc : c i <;> simp [hc]
  rw [h, loop_add]

/-- A loop whose `j`-th iteration rewrites the cells of block `j` (of width `B`),
each from its own old value, rewrites the first `n` blocks. -/
theorem loop_blocks {α : Type} (B : Nat) (F : Nat → Nat → α → α)
    (body : Nat → Buf α → Buf α)
    (h : ∀ j m p, body j m p = if B * j ≤ p ∧ p < B * j + B then F j p (m p) else m p)
    (n : Nat) (m : Buf α) (p : Nat) :
    loop body n m p = if p < B * n then F (p / B) p (m p) else m p := by
  induction n with
  | zero => simp [loop_zero]
  | succ n ih =>
    rw [loop_succ, h, ih]
    by_cases h1 : p < B * n
    · have h2 : ¬ (B * n ≤ p ∧ p < B * n + B) := by omega
      have h3 : p < B * (n + 1) := by rw [Nat.mul_succ]; omega
      simp [h1, h2, h3]
    · by_cases h2 : p < B * n + B
      · have h3 : p < B * (n + 1) := by rw [Nat.mul_succ]; omega
        have hB : 0 < B := by omega
        have h4 : p / B = n := by
          apply Nat.div_eq_of_lt_le
          · rw [Nat.mul_comm]; omega
          · rw [Nat.succ_mul, Nat.mul_comm]; omega
        have h5 : B * n ≤ p := by omega
        simp [h1, h2, h3, h4, h5]
      · have h3 : ¬ p < B * (n + 1) := by rw [Nat.mul_succ]; omega
        have h4 : ¬ (B * n ≤ p ∧ p < B * n + B) := by omega
        simp [h1, h3, h4]

/-- A loop that rewrites cell `i` from its own old value rewrites the first
`n` cells. -/
theorem loop_cells {α : Type} (F : Nat → α → α) (n : Nat) (m : Buf α) (p : Nat) :
    loop (fun i m => Function.update m i (F i (m i))) n m p
      = if p < n then F p (m p) else m p := by
  induction n with
  | zero => simp [loop_zero]
  | succ n ih =>
    rw [loop_succ, Function.update_apply]
    by_cases h1 : p = n
    · subst h1
      rw [loop_pointwise (fun i m => Function.update m i (F i (m i)))
        (fun i q v => if q = i then F i v else v)] at ih ⊢
      · simp at ih
        simp [ih]
      · intro i m q; by_cases hq : q = i <;> simp [Function.update_apply, hq]
      · intro i m q; by_cases hq : q = i <;> simp [Function.update_apply, hq]
    · rw [ih]
      by_cases h2 : p < n
      · have : p < n + 1 := by omega
        simp [h1, h2, this]
      · have : ¬ p < n + 1 := by omega
        simp [h1, h2, this]

/-- A loop that rewrites cell `base + j` from its own old value rewrites the
cells `base, …, base + n - 1`. -/
theorem loop_row {α : Type} (F : Nat → α → α) (base n : Nat) (m : Buf α) (p : Nat) :
    loop (fun j m => Function.update m (base + j) (F j (m (base + j)))) n m p
      = if base ≤ p ∧ p < base + n then F (p - base) (m p) else m p := by
  rw [loop_pointwise (fun j m => Function.update m (base + j) (F j (m (base + j))))
    (fun j q v => if q = base + j then F j v else v)]
  · induction n with
    | zero =>
      have : ¬ (base ≤ p ∧ p < base + 0) := by omega
      rw [loop_zero, if_neg this]
    | succ n ih =>
      rw [loop_succ, ih]
      by_cases h1 : p = base + n
      · have h2 : ¬ (base ≤ p ∧ p < base + n) := by omega
        have h3 : base ≤ p ∧ p < base + (n + 1) := by omega
        have h4 : p - base = n := by omega
        simp only [h1, h2, h3, h4, if_true, if_false]
        simp
      · by_cases h2 : base ≤ p ∧ p < base + n
        · have h3 : base ≤ p ∧ p < base + (n + 1) := by omega
          simp [h1, h2, h3]
        · have h3 : ¬ (base ≤ p ∧ p < base + (n + 1)) := by omega
          simp [h1, h2, h3]
  · intro j m q
    by_cases hq : q = base + j <;> simp [Function.update_apply, hq]

/-! ## Convolution -/

section Convolution

variable {α : Type} [LinearOrderedField α]

/-- The value `sum` that `convolution3x3` adds to `output[i * N + j]`. -/
theorem conv_taps_eq (input filter : Buf α) (N i j : Nat) :
    loop (fun k sum =>
        loop (fun l sum =>
          let x : Int := (i : Int) + (k : Int) - 1
          let y : Int := (j : Int) + (l : Int) - 1
          if x ≥ 0 ∧ x < (N : Int) ∧ y ≥ 0 ∧ y < (N : Int) then
            sum + input (x * (N : Int) + y).toNat * filter (k * 3 + l)
          else sum) 3 sum) 3 (0 : α)
      = tap_sum input filter N i j := by
  simp only [loop_add_ite, loop_add, tap_sum, zero_add]

/-- Cell by cell, `convolution3x3` adds the tap sum to the first `N * N` cells of
`output` and leaves the others alone. -/
theorem convolution3x3_apply (input output filter : Buf α) (N p : Nat) :
    convolution3x3 input output filter N p
      = if p < N * N then output p + tap_sum input filter N (p / N) (p % N) else output p := by
  unfold convolution3x3
  simp only [conv_taps_eq]
  rw [loop_blocks N (fun i p v => v + tap_sum input filter N i (p - N * i))]
  · by_cases h : p < N * N
    · have : p - N * (p / N) = p % N := by
        have := Nat.div_add_mod p N
        omega
      simp [h, this]
    · simp [h]
  · intro i m q
    rw [Nat.mul_comm i N]
    rw [loop_row (fun j v => v + tap_sum input filter N i j) (N * i) N m q]

/-- A guarded accumulation loop whose guard does not depend on the counter. -/
theorem loop_add_guard {β : Type} [AddCommMonoid β] (c : Prop) [Decidable c]
    (f : Nat → β) (n : Nat) (s : β) :
    loop (fun i s => if c then s + f i else s) n s
      = if c then s + ∑ i in Finset.range n, f i else s := by
  rw [loop_add_ite (fun _ => c) f n s]
  by_cases hc : c <;> simp [hc]

/-- The accumulation loops of `convolution_layer` for one output channel. -/
theorem conv_channel_apply (inputs filters m : Buf α) (D1 N j q : Nat) :
    loop (fun i outputs =>
        let input := shift inputs (N * N * i)
        let output := shift outputs (N * N * j)
        let filter := shift filters (3 * 3 * (j * D1 + i))
        unshift outputs (N * N * j) (convolution3x3 input output filter N)) D1 m q
      = if N * N * j ≤ q ∧ q < N * N * j + N * N then
          m q + conv_acc inputs filters D1 N j ((q - N * N * j) / N) ((q - N * N * j) % N)
        else m q := by
  rw [loop_pointwise _ (fun i q v => if N * N * j ≤ q ∧ q < N * N * j + N * N then
      v + tap_sum (shift inputs (N * N * i)) (shift filters (3 * 3 * (j * D1 + i))) N
        ((q - N * N * j) / N) ((q - N * N * j) % N) else v)]
  · rw [loop_add_guard]
    rfl
  · intro i m q
    simp only [unshift, convolution3x3_apply, shift]
    by_cases h1 : N * N * j ≤ q
    · have h2 : N * N * j + (q - N * N * j) = q := by omega
      by_cases h3 : q < N * N * j + N * N
      · have h4 : q - N * N * j < N * N := by omega
        simp [h1, h2, h3, h4]
      · have h4 : ¬ q - N * N * j < N * N := by omega
        simp [h1, h2, h3, h4]
    · simp [h1]

/-- Cell by cell, `convolution_layer` overwrites the first `N * N * D2` cells of
`outputs` with the rectified biased channel sums and leaves the others alone. -/
theorem convolution_layer_apply (inputs outputs filters biases : Buf α) (D2 D1 N p : Nat) :
    convolution_layer inputs outputs filters biases D2 D1 N p
      = if p < N * N * D2 then
          ReLU (conv_acc inputs filters D1 N (p / (N * N)) (p % (N * N) / N) (p % (N * N) % N)
            + biases (p / (N * N)))
        else outputs p := by
  unfold convolution_layer
  simp only []
  rw [loop_blocks (N * N) (fun i _ v => ReLU (v + biases i))]
  · rw [loop_blocks (N * N) (fun j q v =>
      v + conv_acc inputs filters D1 N j ((q - N * N * j) / N) ((q - N * N * j) % N))]
    · by_cases h : p < N * N * D2
      · have h2 : p - N * N * (p / (N * N)) = p % (N * N) := by
          have := Nat.div_add_mod p (N * N)
          omega
        simp [h, h2, memset_zero]
      · simp [h, memset_zero]
    · intro j m q
      exact conv_channel_apply inputs filters m D1 N j q
  · intro i m q
    simp only [unshift, shift]
    rw [loop_cells (fun _ v => ReLU (v + biases i))]
    by_cases h1 : N * N * i ≤ q
    · have h2 : N * N * i + (q - N * N * i) = q := by omega
      by_cases h3 : q < N * N * i + N * N
      · have h4 : q - N * N * i < N * N := by omega
        simp [h1, h2, h3, h4, shift]
      · have h4 : ¬ q - N * N * i < N * N := by omega
        simp [h1, h2, h3, h4, shift]
    · simp [h1]

theorem ReLU_eq_max (x : α) : ReLU x = max 0 x := by
  unfold ReLU
  by_cases h : x > 0
  · rw [if_pos h, max_eq_right (le_of_lt h)]
  · rw [if_neg h, max_eq_left (not_lt.mp h)]

/-- Row-major coordinates of a cell of an `N × N` plane. -/
theorem plane_coords (N x y : Nat) (hy : y < N) :
    (x * N + y) / N = x ∧ (x * N + y) % N = y := by
  have hN : 0 < N := by omega
  constructor
  · rw [Nat.add_comm, Nat.add_mul_div_right _ _ hN, Nat.div_eq_of_lt hy, Nat.zero_add]
  · rw [Nat.add_comm, Nat.add_mul_mod_self_right, Nat.mod_eq_of_lt hy]

/-- Channel-major coordinates of a cell of a `(D, N, N)` tensor. -/
theorem tensor_coords (N j x y : Nat) (hx : x < N) (hy : y < N) :
    (j * N * N + x * N + y) / (N * N) = j ∧ (j * N * N + x * N + y) % (N * N) = x * N + y := by
  have hlt : x * N + y < N * N := by
    have h1 : (x + 1) * N ≤ N * N := Nat.mul_le_mul_right N hx
    have h2 : (x + 1) * N = x * N + N := Nat.succ_mul x N
    omega
  have he : j * N * N + x * N + y = j * (N * N) + (x * N + y) := by
    rw [Nat.mul_assoc, Nat.add_assoc]
  rw [he]
  exact plane_coords (N * N) j (x * N + y) hlt

theorem tensor_index_lt (D N j x y : Nat) (hj : j < D) (hx : x < N) (hy : y < N) :
    j * N * N + x * N + y < N * N * D := by
  have hlt : x * N + y < N * N := by
    have h1 : (x + 1) * N ≤ N * N := Nat.mul_le_mul_right N hx
    have h2 : (x + 1) * N = x * N + N := Nat.succ_mul x N
    omega
  have h3 : (j + 1) * (N * N) ≤ D * (N * N) := Nat.mul_le_mul_right (N * N) hj
  have h4 : (j + 1) * (N * N) = j * (N * N) + N * N := Nat.succ_mul j (N * N)
  have h5 : j * N * N = j * (N * N) := Nat.mul_assoc j N N
  have h6 : N * N * D = D * (N * N) := Nat.mul_comm _ _
  omega

/-- The cell `(j, x, y)` of the output of `convolution_layer`. -/
theorem convolution_layer_cell (inputs outputs filters biases : Buf α)
    (D2 D1 N j x y : Nat) (hj : j < D2) (hx : x < N) (hy : y < N) :
    convolution_layer inputs outputs filters biases D2 D1 N (j * N * N + x * N + y)
      = ReLU (conv_acc inputs filters D1 N j x y + biases j) := by
  rw [convolution_layer_apply, if_pos (tensor_index_lt D2 N j x y hj hx hy)]
  obtain ⟨h1, h2⟩ := tensor_coords N j x y hx hy
  obtain ⟨h3, h4⟩ := plane_coords N x y hy
  rw [h1, h2, h3, h4]

/-- The channel sum written with the indices of the enclosing buffers. -/
theorem conv_acc_eq (inputs filters : Buf α) (D1 N j x y : Nat) :
    conv_acc inputs filters D1 N j x y
      = ∑ i in Finset.range D1, ∑ k in Finset.range 3, ∑ l in Finset.range 3,
          if 0 ≤ (x : Int) + (k : Int) - 1 ∧ (x : Int) + (k : Int) - 1 < (N : Int)
              ∧ 0 ≤ (y : Int) + (l : Int) - 1 ∧ (y : Int) + (l : Int) - 1 < (N : Int) then
            inputs ((i : Int) * (N : Int) * (N : Int)
                + ((x : Int) + (k : Int) - 1) * (N : Int) + ((y : Int) + (l : Int) - 1)).toNat
              * filters (9 * (j * D1 + i) + 3 * k + l)
          else 0 := by
  unfold conv_acc tap_sum
  refine Finset.sum_congr rfl (fun i _ => Finset.sum_congr rfl (fun k _ =>
    Finset.sum_congr rfl (fun l _ => ?_)))
  by_cases h : 0 ≤ (x : Int) + (k : Int) - 1 ∧ (x : Int) + (k : Int) - 1 < (N : Int)
      ∧ 0 ≤ (y : Int) + (l : Int) - 1 ∧ (y : Int) + (l : Int) - 1 < (N : Int)
  · have h' : (x : Int) + (k : Int) - 1 ≥ 0 ∧ (x : Int) + (k : Int) - 1 < (N : Int)
        ∧ (y : Int) + (l : Int) - 1 ≥ 0 ∧ (y : Int) + (l : Int) - 1 < (N : Int) := h
    rw [if_pos h, if_pos h']
    obtain ⟨hx0, _, hy0, _⟩ := h
    have hq : 0 ≤ ((x : Int) + (k : Int) - 1) * (N : Int) + ((y : Int) + (l : Int) - 1) :=
      add_nonneg (mul_nonneg hx0 (Int.ofNat_nonneg N)) hy0
    have hu : 0 ≤ (i : Int) * (N : Int) * (N : Int)
        + ((x : Int) + (k : Int) - 1) * (N : Int) + ((y : Int) + (l : Int) - 1) :=
      add_nonneg (add_nonneg (mul_nonneg (mul_nonneg (Int.ofNat_nonneg i) (Int.ofNat_nonneg N))
        (Int.ofNat_nonneg N)) (mul_nonneg hx0 (Int.ofNat_nonneg N))) hy0
    have e1 : N * N * i + (((x : Int) + (k : Int) - 1) * (N : Int)
          + ((y : Int) + (l : Int) - 1)).toNat
        = ((i : Int) * (N : Int) * (N : Int)
          + ((x : Int) + (k : Int) - 1) * (N : Int) + ((y : Int) + (l : Int) - 1)).toNat := by
      apply Int.ofNat_inj.mp
      push_cast
      rw [Int.toNat_of_nonneg hq, Int.toNat_of_nonneg hu]
      ring
    have e2 : 3 * 3 * (j * D1 + i) + (k * 3 + l) = 9 * (j * D1 + i) + 3 * k + l := by omega
    simp only [shift, e1, e2]
  · have h' : ¬ ((x : Int) + (k : Int) - 1 ≥ 0 ∧ (x : Int) + (k : Int) - 1 < (N : Int)
        ∧ (y : Int) + (l : Int) - 1 ≥ 0 ∧ (y : Int) + (l : Int) - 1 < (N : Int)) := h
    rw [if_neg h, if_neg h']

end Convolution

/-! ## Fully-connected layer, softmax, argmax -/

section Dense

variable {α : Type} [LinearOrderedField α]

/-- Cell by cell, `fc_layer` overwrites the first `M` cells of `output_neuron`
with the rectified biased dot products and leaves the others alone. -/
theorem fc_layer_apply (input_neuron output_neuron weights biases : Buf α) (M N p : Nat) :
    fc_layer input_neuron output_neuron weights biases M N p
      = if p < M then
          ReLU ((∑ i in Finset.range N, input_neuron i * weights (p * N + i)) + biases p)
        else output_neuron p := by
  unfold fc_layer
  simp only [loop_add, zero_add]
  rw [loop_cells (fun j _ =>
    ReLU ((∑ i in Finset.range N, input_neuron i * weights (j * N + i)) + biases j))]

theorem softmax_sum_eq (exp : α → α) (output : Buf α) (N : Nat) :
    softmax_sum exp output N
      = ∑ i in Finset.range N, exp (output i - softmax_max output N) := by
  unfold softmax_sum
  simp only [loop_add, zero_add]

/-- Cell by cell, `softmax` overwrites the first `N` cells of `output`. -/
theorem softmax_apply (exp : α → α) (output : Buf α) (N p : Nat) :
    softmax exp output N p
      = if p < N then exp (output p - softmax_max output N) / softmax_sum exp output N
        else output p := by
  unfold softmax
  rw [loop_cells (fun _ v => exp (v - softmax_max output N) / softmax_sum exp output N)]

/-- The invariant of the loop of `find_max`: either nothing positive has been
seen and the state is still `(0, 0)`, or the state is the first index of the
largest value seen, which is positive. -/
theorem find_max_loop_inv (fc : Buf α) (N : Nat) :
    (find_max_loop fc N = (0, 0) ∧ ∀ i < N, fc i ≤ 0) ∨
    ((find_max_loop fc N).1 < N ∧ (find_max_loop fc N).2 = fc (find_max_loop fc N).1
      ∧ 0 < (find_max_loop fc N).2 ∧ (∀ i < N, fc i ≤ (find_max_loop fc N).2)
      ∧ ∀ i < (find_max_loop fc N).1, fc i < (find_max_loop fc N).2) := by
  induction N with
  | zero =>
    left
    exact ⟨rfl, fun i hi => absurd hi (Nat.not_lt_zero i)⟩
  | succ n ih =>
    have step : find_max_loop fc (n + 1)
        = if (find_max_loop fc n).2 < fc n then (n, fc n) else find_max_loop fc n := rfl
    rw [step]
    by_cases hlt : (find_max_loop fc n).2 < fc n
    · rw [if_pos hlt]
      right
      have hall : ∀ i < n, fc i ≤ (find_max_loop fc n).2 := by
        rcases ih with ⟨h0, hle⟩ | ⟨_, _, _, hle, _⟩
        · intro i hi; rw [h0]; exact hle i hi
        · exact hle
      have hpos : 0 < fc n := by
        rcases ih with ⟨h0, _⟩ | ⟨_, _, hp, _, _⟩
        · rw [h0] at hlt; exact hlt
        · exact lt_trans hp hlt
      refine ⟨Nat.lt_succ_self n, rfl, hpos, ?_, ?_⟩
      · intro i hi
        rcases Nat.lt_succ_iff_lt_or_eq.mp hi with h | h
        · exact le_of_lt (lt_of_le_of_lt (hall i h) hlt)
        · rw [h]
      · intro i hi
        exact lt_of_le_of_lt (hall i hi) hlt
    · rw [if_neg hlt]
      have hn : fc n ≤ (find_max_loop fc n).2 := not_lt.mp hlt
      rcases ih with ⟨h0, hle⟩ | ⟨hid, hval, hp, hle, hfirst⟩
      · left
        refine ⟨h0, ?_⟩
        intro i hi
        rcases Nat.lt_succ_iff_lt_or_eq.mp hi with h | h
        · exact hle i h
        · rw [h]; rw [h0] at hn; exact hn
      · right
        refine ⟨Nat.lt_succ_of_lt hid, hval, hp, ?_, hfirst⟩
        intro i hi
        rcases Nat.lt_succ_iff_lt_or_eq.mp hi with h | h
        · exact hle i h
        · rw [h]; exact hn

/-- When some entry is positive, `find_max` returns the first index of the
largest entry. -/
theorem find_max_of_pos (fc : Buf α) (N m : Nat) (hm : m < N) (hpos : 0 < fc m) :
    find_max fc N < N ∧ (∀ i < N, fc i ≤ fc (find_max fc N))
      ∧ ∀ i < find_max fc N, fc i < fc (find_max fc N) := by
  unfold find_max
  rcases find_max_loop_inv fc N with ⟨_, hle⟩ | ⟨hid, hval, _, hle, hfirst⟩
  · exact absurd hpos (not_lt.mpr (hle m hm))
  · rw [← hval]
    exact ⟨hid, hle, hfirst⟩

/-- When no entry is positive, `find_max` returns `0`. -/
theorem find_max_of_nonpos (fc : Buf α) (N : Nat) (h : ∀ i < N, fc i ≤ 0) :
    find_max fc N = 0 := by
  unfold find_max
  rcases find_max_loop_inv fc N with ⟨h0, _⟩ | ⟨hid, hval, hp, _, _⟩
  · rw [h0]
  · rw [hval] at hp
    exact absurd hp (not_lt.mpr (h _ hid))

end Dense

/-! ## What each stage reads -/

section Reads

variable {α : Type} [LinearOrderedField α]

/-- A loop only depends on what its body does for the counters it reaches. -/
theorem loop_congr {σ : Type} (body body' : Nat → σ → σ) (n : Nat)
    (h : ∀ i, i < n → ∀ s, body i s = body' i s) (s : σ) :
    loop body n s = loop body' n s := by
  induction n with
  | zero => rfl
  | succ n ih =>
    rw [loop_succ, loop_succ, h n (Nat.lt_succ_self n),
      ih (fun i hi => h i (Nat.lt_succ_of_lt hi))]

theorem tap_sum_congr (a a' filter : Buf α) (N x y : Nat) (h : agree (N * N) a a') :
    tap_sum a filter N x y = tap_sum a' filter N x y := by
  unfold tap_sum
  refine Finset.sum_congr rfl (fun k _ => Finset.sum_congr rfl (fun l _ => ?_))
  by_cases hc : (x : Int) + (k : Int) - 1 ≥ 0 ∧ (x : Int) + (k : Int) - 1 < (N : Int)
      ∧ (y : Int) + (l : Int) - 1 ≥ 0 ∧ (y : Int) + (l : Int) - 1 < (N : Int)
  · rw [if_pos hc, if_pos hc]
    obtain ⟨hx0, hx1, hy0, hy1⟩ := hc
    have hlt : (((x : Int) + (k : Int) - 1) * (N : Int) + ((y : Int) + (l : Int) - 1)).toNat
        < N * N := by
      have h1 : ((x : Int) + (k : Int) - 1 + 1) * (N : Int) ≤ (N : Int) * (N : Int) :=
        mul_le_mul_of_nonneg_right (by omega) (Int.ofNat_nonneg N)
      have h2 : ((x : Int) + (k : Int) - 1) * (N : Int) + ((y : Int) + (l : Int) - 1)
          < ((N * N : Nat) : Int) := by
        push_cast
        linarith
      have h3 : 0 ≤ ((x : Int) + (k : Int) - 1) * (N : Int) + ((y : Int) + (l : Int) - 1) :=
        add_nonneg (mul_nonneg hx0 (Int.ofNat_nonneg N)) hy0
      omega
    rw [h _ hlt]
  · rw [if_neg hc, if_neg hc]

theorem conv_acc_congr (a a' filters : Buf α) (D1 N j x y : Nat)
    (h : agree (N * N * D1) a a') :
    conv_acc a filters D1 N j x y = conv_acc a' filters D1 N j x y := by
  unfold conv_acc
  refine Finset.sum_congr rfl (fun i hi => tap_sum_congr _ _ _ N x y ?_)
  intro q hq
  have hi' : i < D1 := Finset.mem_range.mp hi
  have h1 : N * N * (i + 1) ≤ N * N * D1 := Nat.mul_le_mul_left (N * N) hi'
  have h2 : N * N * (i + 1) = N * N * i + N * N := Nat.mul_succ (N * N) i
  exact h _ (by omega)

/-- The output tensor of `convolution_layer` is a function of the input tensor
(and the parameters): not of what lies past it, nor of the old output. -/
theorem convolution_layer_agree (a a' o o' filters biases : Buf α) (D2 D1 N : Nat)
    (h : agree (N * N * D1) a a') :
    agree (N * N * D2) (convolution_layer a o filters biases D2 D1 N)
      (convolution_layer a' o' filters biases D2 D1 N) := by
  intro p hp
  rw [convolution_layer_apply, convolution_layer_apply, if_pos hp, if_pos hp,
    conv_acc_congr a a' filters D1 N _ _ _ h]

/-- The output tensor of `pooling_layer` is a function of the input tensor. -/
theorem pooling_layer_agree (kernel : Nat → Nat → Buf α → Buf α) (a a' o o' : Buf α)
    (D N : Nat) (h : agree (D * (N * 2) * (N * 2)) a a') :
    agree (D * N * N) (pooling_layer kernel a o D N) (pooling_layer kernel a' o' D N) := by
  intro p hp
  have e : (fun q => if q < D * (N * 2) * (N * 2) then a q else 0)
      = fun q => if q < D * (N * 2) * (N * 2) then a' q else 0 := by
    funext q
    by_cases hq : q < D * (N * 2) * (N * 2)
    · rw [if_pos hq, if_pos hq, h q hq]
    · rw [if_neg hq, if_neg hq]
  simp only [pooling_layer, if_pos hp, e]

/-- The output vector of `fc_layer` is a function of the input vector. -/
theorem fc_layer_agree (a a' o o' weights biases : Buf α) (M N : Nat) (h : agree N a a') :
    agree M (fc_layer a o weights biases M N) (fc_layer a' o' weights biases M N) := by
  intro p hp
  rw [fc_layer_apply, fc_layer_apply, if_pos hp, if_pos hp]
  congr 2
  exact Finset.sum_congr rfl (fun i hi => by rw [h i (Finset.mem_range.mp hi)])

theorem softmax_max_agree (a a' : Buf α) (N : Nat) (hN : 1 ≤ N) (h : agree N a a') :
    softmax_max a N = softmax_max a' N := by
  unfold softmax_max loopFrom
  rw [h 0 (by omega)]
  apply loop_congr
  intro i hi s
  show (if a (1 + i) > s then a (1 + i) else s) = if a' (1 + i) > s then a' (1 + i) else s
  rw [h (1 + i) (by omega)]

theorem softmax_agree (exp : α → α) (a a' : Buf α) (N : Nat) (hN : 1 ≤ N)
    (h : agree N a a') : agree N (softmax exp a N) (softmax exp a' N) := by
  intro p hp
  rw [softmax_apply, softmax_apply, if_pos hp, if_pos hp, softmax_sum_eq, softmax_sum_eq,
    softmax_max_agree a a' N hN h, h p hp]
  congr 1
  exact Finset.sum_congr rfl (fun i hi => by rw [h i (Finset.mem_range.mp hi)])

theorem find_max_agree (a a' : Buf α) (N : Nat) (h : agree N a a') :
    find_max a N = find_max a' N := by
  unfold find_max find_max_loop
  rw [loop_congr _ (fun i (s : Nat × α) => if s.2 < a' i then (i, a' i) else s) N]
  intro i hi s
  show (if s.2 < a i then (i, a i) else s) = if s.2 < a' i then (i, a' i) else s
  rw [h i hi]

end Reads

/-! ## The pipeline -/

section Pipeline

variable {α : Type} [LinearOrderedField α]

theorem find_max_lt (fc : Buf α) (N : Nat) (hN : 0 < N) : find_max fc N < N := by
  unfold find_max
  rcases find_max_loop_inv fc N with ⟨h0, _⟩ | ⟨hid, _⟩
  · rw [h0]; exact hN
  · exact hid

/-- The probabilities that one iteration of the image loop leaves in `fc3` are a
function of the image (and the network): not of what the buffers held. -/
theorem cnn_forward_agree (exp : α → α) (kernel : Nat → Nat → Buf α → Buf α)
    (network : Nat → Buf α) (image image' : Buf α) (b b' : Layers α)
    (h : agree (3 * 32 * 32) image image') :
    agree 10 (cnn_forward exp kernel network image b).fc3
      (cnn_forward exp kernel network image' b').fc3 := by
  have h1 := convolution_layer_agree image image' b.c1_1 b'.c1_1 (network 0) (network 1)
    64 3 32 h
  have h2 := convolution_layer_agree _ _ b.c1_2 b'.c1_2 (network 2) (network 3) 64 64 32 h1
  have h3 := pooling_layer_agree kernel _ _ b.p1 b'.p1 64 16 h2
  have h4 := convolution_layer_agree _ _ b.c2_1 b'.c2_1 (network 4) (network 5) 128 64 16 h3
  have h5 := convolution_layer_agree _ _ b.c2_2 b'.c2_2 (network 6) (network 7) 128 128 16 h4
  have h6 := pooling_layer_agree kernel _ _ b.p2 b'.p2 128 8 h5
  have h7 := convolution_layer_agree _ _ b.c3_1 b'.c3_1 (network 8) (network 9) 256 128 8 h6
  have h8 := convolution_layer_agree _ _ b.c3_2 b'.c3_2 (network 10) (network 11) 256 256 8 h7
  have h9 := convolution_layer_agree _ _ b.c3_3 b'.c3_3 (network 12) (network 13) 256 256 8 h8
  have h10 := pooling_layer_agree kernel _ _ b.p3 b'.p3 256 4 h9
  have h11 := convolution_layer_agree _ _ b.c4_1 b'.c4_1 (network 14) (network 15)
    512 256 4 h10
  have h12 := convolution_layer_agree _ _ b.c4_2 b'.c4_2 (network 16) (network 17)
    512 512 4 h11
  have h13 := convolution_layer_agree _ _ b.c4_3 b'.c4_3 (network 18) (network 19)
    512 512 4 h12
  have h14 := pooling_layer_agree kernel _ _ b.p4 b'.p4 512 2 h13
  have h15 := convolution_layer_agree _ _ b.c5_1 b'.c5_1 (network 20) (network 21)
    512 512 2 h14
  have h16 := convolution_layer_agree _ _ b.c5_2 b'.c5_2 (network 22) (network 23)
    512 512 2 h15
  have h17 := convolution_layer_agree _ _ b.c5_3 b'.c5_3 (network 24) (network 25)
    512 512 2 h16
  have h18 := pooling_layer_agree kernel _ _ b.p5 b'.p5 512 1 h17
  have h19 := fc_layer_agree _ _ b.fc1 b'.fc1 (network 26) (network 27) 512 512 h18
  have h20 := fc_layer_agree _ _ b.fc2 b'.fc2 (network 28) (network 29) 512 512 h19
  have h21 := fc_layer_agree _ _ b.fc3 b'.fc3 (network 30) (network 31) 10 512 h20
  exact softmax_agree exp _ _ 10 (by decide) h21

/-- The label and the confidence that one iteration of the image loop computes
are a function of the image (and the network). -/
theorem cnn_forward_result_agree (exp : α → α) (kernel : Nat → Nat → Buf α → Buf α)
    (network : Nat → Buf α) (image image' : Buf α) (b b' : Layers α)
    (h : agree (3 * 32 * 32) image image') :
    find_max (cnn_forward exp kernel network image b).fc3 10
        = find_max (cnn_forward exp kernel network image' b').fc3 10
      ∧ (cnn_forward exp kernel network image b).fc3
          (find_max (cnn_forward exp kernel network image b).fc3 10)
        = (cnn_forward exp kernel network image' b').fc3
          (find_max (cnn_forward exp kernel network image' b').fc3 10) := by
  have hfc := cnn_forward_agree exp kernel network image image' b b' h
  have hl := find_max_agree _ _ 10 hfc
  refine ⟨hl, ?_⟩
  rw [← hl]
  exact hfc _ (find_max_lt _ 10 (by decide))

/-- What the image loop of `cnn` has written at index `i` once it has passed it:
the label and confidence computed from image `i`, whatever the buffers held when
its iteration began. -/
theorem cnn_loop_result (exp : α → α) (kernel : Nat → Nat → Buf α → Buf α)
    (images : Buf α) (network : Nat → Buf α) (s : State α) (n i : Nat) (hi : i < n) :
    ∃ b : Layers α,
      (loop (cnn_image exp kernel images network) n s).labels i
          = ((find_max (cnn_forward exp kernel network
              (shift images (i * 3 * 32 * 32)) b).fc3 10 : Nat) : Int)
        ∧ (loop (cnn_image exp kernel images network) n s).confidences i
          = (cnn_forward exp kernel network (shift images (i * 3 * 32 * 32)) b).fc3
              (find_max (cnn_forward exp kernel network
                (shift images (i * 3 * 32 * 32)) b).fc3 10)
        ∧ (i + 1 = n → (loop (cnn_image exp kernel images network) n s).layers
            = cnn_forward exp kernel network (shift images (i * 3 * 32 * 32)) b) := by
  induction n with
  | zero => exact absurd hi (Nat.not_lt_zero i)
  | succ n ih =>
    rw [loop_succ]
    rcases Nat.lt_succ_iff_lt_or_eq.mp hi with h | h
    · obtain ⟨b, hl, hc, _⟩ := ih h
      have hne : i ≠ n := Nat.ne_of_lt h
      refine ⟨b, ?_, ?_, ?_⟩
      · simp only [cnn_image, Function.update_apply, if_neg hne]
        exact hl
      · simp only [cnn_image, Function.update_apply, if_neg hne]
        exact hc
      · intro hcon
        omega
    · subst h
      refine ⟨(loop (cnn_image exp kernel images network) i s).layers, ?_, ?_, ?_⟩
      · simp only [cnn_image, Function.update_same]
      · simp only [cnn_image, Function.update_same, Int.toNat_ofNat]
      · intro _
        simp only [cnn_image]

end Pipeline

/-! ## Softmax over the reals -/

section SoftmaxReal

theorem softmax_sum_pos (x : Buf ℝ) (N : Nat) (hN : 1 ≤ N) :
    0 < softmax_sum Real.exp x N := by
  rw [softmax_sum_eq]
  apply Finset.sum_pos
  · intro i _
    exact Real.exp_pos _
  · exact ⟨0, Finset.mem_range.mpr (by omega)⟩

theorem softmax_pos (x : Buf ℝ) (N i : Nat) (hi : i < N) : 0 < softmax Real.exp x N i := by
  rw [softmax_apply, if_pos hi]
  exact div_pos (Real.exp_pos _) (softmax_sum_pos x N (by omega))

theorem softmax_total (x : Buf ℝ) (N : Nat) (hN : 1 ≤ N) :
    ∑ i in Finset.range N, softmax Real.exp x N i = 1 := by
  have h : ∀ i ∈ Finset.range N, softmax Real.exp x N i
      = Real.exp (x i - softmax_max x N) / softmax_sum Real.exp x N := by
    intro i hi
    rw [softmax_apply, if_pos (Finset.mem_range.mp hi)]
  rw [Finset.sum_congr rfl h, ← Finset.sum_div, ← softmax_sum_eq]
  exact div_self (ne_of_gt (softmax_sum_pos x N hN))

end SoftmaxReal

/-! ## Uniform scores, and images that agree -/

section Uniform

variable {α : Type} [LinearOrderedField α]

/-- With zero weights and zero biases `fc_layer` writes zeros. -/
theorem fc_layer_zero (a o w b : Buf α) (M N p : Nat) (hp : p < M)
    (hw : ∀ q, w q = 0) (hb : ∀ q, b q = 0) : fc_layer a o w b M N p = 0 := by
  rw [fc_layer_apply, if_pos hp, hb]
  simp [hw, ReLU]

theorem softmax_max_const (z : Buf α) (N : Nat) (c : α) (hN : 1 ≤ N)
    (hz : ∀ i, i < N → z i = c) : softmax_max z N = c := by
  unfold softmax_max loopFrom
  rw [hz 0 (by omega),
    loop_congr _ (fun _ (m : α) => if c > m then c else m) (N - 1)
      (fun i hi m => by
        show (if z (1 + i) > m then z (1 + i) else m) = if c > m then c else m
        rw [hz (1 + i) (by omega)])]
  generalize N - 1 = n
  induction n with
  | zero => rfl
  | succ n ih => rw [loop_succ, ih, if_neg (lt_irrefl c)]

/-- On scores that are all equal `softmax` (with the real exponential) writes
`1 / N` everywhere. -/
theorem softmax_uniform (z : Buf ℝ) (N : Nat) (c : ℝ) (hN : 1 ≤ N)
    (hz : ∀ i, i < N → z i = c) (p : Nat) (hp : p < N) :
    softmax Real.exp z N p = 1 / (N : ℝ) := by
  rw [softmax_apply, if_pos hp, softmax_sum_eq, softmax_max_const z N c hN hz, hz p hp]
  have h : ∀ i ∈ Finset.range N, Real.exp (z i - c) = 1 := by
    intro i hi
    rw [hz i (Finset.mem_range.mp hi), sub_self, Real.exp_zero]
  rw [Finset.sum_congr rfl h, sub_self, Real.exp_zero]
  simp

/-- On a vector whose entries are all the same positive value `find_max`
returns `0`. -/
theorem find_max_uniform (fc : Buf α) (N : Nat) (c : α) (hN : 1 ≤ N) (hc : 0 < c)
    (hfc : ∀ i, i < N → fc i = c) : find_max fc N = 0 := by
  obtain ⟨hlt, _, hfirst⟩ := find_max_of_pos fc N 0 (by omega) (by rw [hfc 0 (by omega)]; exact hc)
  by_contra hne
  have h0 := hfirst 0 (Nat.pos_of_ne_zero hne)
  rw [hfc 0 (by omega), hfc _ hlt] at h0
  exact lt_irrefl c h0

/-- When the last fully-connected layer has zero weights and zero biases, an
iteration of the image loop leaves the uniform distribution in `fc3`, the label
`0` and the confidence `1 / 10`. -/
theorem cnn_image_zero_head (kernel : Nat → Nat → Buf ℝ → Buf ℝ) (images : Buf ℝ)
    (network : Nat → Buf ℝ) (i : Nat) (s : State ℝ)
    (hw : ∀ q, network 30 q = 0) (hb : ∀ q, network 31 q = 0) :
    (∀ k, k < 10 → (cnn_image Real.exp kernel images network i s).layers.fc3 k = 1 / 10)
      ∧ (cnn_image Real.exp kernel images network i s).labels i = 0
      ∧ (cnn_image Real.exp kernel images network i s).confidences i = 1 / 10 := by
  have hfc : ∀ k, k < 10 →
      (cnn_image Real.exp kernel images network i s).layers.fc3 k = 1 / 10 := by
    intro k hk
    simp only [cnn_image, cnn_forward]
    rw [softmax_uniform _ 10 0 (by decide)
      (fun j hj => fc_layer_zero _ _ _ _ 10 512 j hj hw hb) k hk]
    norm_num
  have hl : find_max (cnn_image Real.exp kernel images network i s).layers.fc3 10 = 0 :=
    find_max_uniform _ 10 (1 / 10) (by decide) (by norm_num) hfc
  refine ⟨hfc, ?_, ?_⟩
  · have e : (cnn_image Real.exp kernel images network i s).labels i
        = ((find_max (cnn_image Real.exp kernel images network i s).layers.fc3 10 : Nat)
            : Int) := by
      simp only [cnn_image, Function.update_same]
    rw [e, hl]
    rfl
  · have e : (cnn_image Real.exp kernel images network i s).confidences i
        = (cnn_image Real.exp kernel images network i s).layers.fc3
            (find_max (cnn_image Real.exp kernel images network i s).layers.fc3 10) := by
      simp only [cnn_image, Function.update_same, Int.toNat_ofNat]
    rw [e, hl]
    exact hfc 0 (by decide)

/-- Two runs of `cnn`, over any batches and from any buffer contents, write the
same label and confidence for two images that are equal. -/
theorem cnn_result_agree (exp : α → α) (kernel : Nat → Nat → Buf α → Buf α)
    (network : Nat → Buf α) (images images' : Buf α) (layers layers' : Layers α)
    (labels labels' : Nat → Int) (confidences confidences' : Buf α) (n n' i i' : Nat)
    (hi : i < n) (hi' : i' < n')
    (h : agree (3 * 32 * 32) (shift images (i * 3 * 32 * 32))
      (shift images' (i' * 3 * 32 * 32))) :
    (cnn exp kernel images network layers labels confidences n).labels i
        = (cnn exp kernel images' network layers' labels' confidences' n').labels i'
      ∧ (cnn exp kernel images network layers labels confidences n).confidences i
        = (cnn exp kernel images' network layers' labels' confidences' n').confidences i' := by
  obtain ⟨b, hl, hc, _⟩ := cnn_loop_result exp kernel images network
    { layers := layers, labels := labels, confidences := confidences } n i hi
  obtain ⟨b', hl', hc', _⟩ := cnn_loop_result exp kernel images' network
    { layers := layers', labels := labels', confidences := confidences' } n' i' hi'
  obtain ⟨e1, e2⟩ := cnn_forward_result_agree exp kernel network _ _ b b' h
  unfold cnn
  exact ⟨by rw [hl, hl', e1], by rw [hc, hc', e2]⟩

end Uniform

/-! ## The identity filter bank -/

section Identity

variable {α : Type} [LinearOrderedField α]

/-- The tap `(k, l)` of filter `(j, i)` of the identity bank. -/
theorem identity_filters_tap (D j i k l : Nat) (hi : i < D) (hk : k < 3) (hl : l < 3) :
    shift (identity_filters D : Buf α) (3 * 3 * (j * D + i)) (k * 3 + l)
      = if k = 1 ∧ l = 1 ∧ j = i then 1 else 0 := by
  unfold shift identity_filters
  have h1 : (3 * 3 * (j * D + i) + (k * 3 + l)) % 9 = k * 3 + l := by omega
  have h2 : (3 * 3 * (j * D + i) + (k * 3 + l)) / 9 = j * D + i := by omega
  obtain ⟨h3, h4⟩ := plane_coords D j i hi
  rw [h1, h2, h3, h4]
  have e : (k * 3 + l = 4 ∧ j = i) ↔ (k = 1 ∧ l = 1 ∧ j = i) := by
    constructor
    · rintro ⟨a, b⟩
      exact ⟨by omega, by omega, b⟩
    · rintro ⟨a, b, c⟩
      exact ⟨by omega, c⟩
  exact if_congr e rfl rfl

/-- Against filter `(j, i)` of the identity bank the tap sum is the centre cell
when `i = j` and `0` otherwise. -/
theorem tap_sum_identity (input : Buf α) (D N j i x y : Nat) (hi : i < D)
    (hx : x < N) (hy : y < N) :
    tap_sum input (shift (identity_filters D) (3 * 3 * (j * D + i))) N x y
      = if j = i then input (x * N + y) else 0 := by
  unfold tap_sum
  have e : ∀ k ∈ Finset.range 3, ∀ l ∈ Finset.range 3,
      shift (identity_filters D : Buf α) (3 * 3 * (j * D + i)) (k * 3 + l)
        = if k = 1 ∧ l = 1 ∧ j = i then 1 else 0 :=
    fun k hk l hl => identity_filters_tap D j i k l hi (Finset.mem_range.mp hk)
      (Finset.mem_range.mp hl)
  rw [Finset.sum_congr rfl (fun k hk => Finset.sum_congr rfl (fun l hl => by rw [e k hk l hl]))]
  have hc : ((x : Int) * (N : Int) + (y : Int)).toNat = x * N + y := by
    rw [← Int.toNat_ofNat (x * N + y)]
    push_cast
    rfl
  simp [Finset.sum_range_succ, hx, hy, hc]

/-- With the identity bank and zero biases `convolution_layer` rectifies the
input tensor cell by cell. -/
theorem convolution_layer_identity_apply (inputs outputs : Buf α) (D N p : Nat)
    (hp : p < N * N * D) :
    convolution_layer inputs outputs (identity_filters D) (fun _ => 0) D D N p
      = ReLU (inputs p) := by
  have hNN : 0 < N * N := Nat.pos_of_ne_zero (fun h0 => by rw [h0, Nat.zero_mul] at hp; omega)
  have hN : 0 < N := Nat.pos_of_ne_zero (fun h0 => by rw [h0] at hNN; omega)
  have hj : p / (N * N) < D := Nat.div_lt_of_lt_mul hp
  have hq : p % (N * N) < N * N := Nat.mod_lt _ hNN
  have hx : p % (N * N) / N < N := Nat.div_lt_of_lt_mul hq
  have hy : p % (N * N) % N < N := Nat.mod_lt _ hN
  rw [convolution_layer_apply, if_pos hp, add_zero]
  unfold conv_acc
  rw [Finset.sum_congr rfl (fun i hi =>
    tap_sum_identity (shift inputs (N * N * i)) D N (p / (N * N)) i _ _
      (Finset.mem_range.mp hi) hx hy)]
  rw [Finset.sum_ite_eq, if_pos (Finset.mem_range.mpr hj)]
  have e : N * N * (p / (N * N)) + (p % (N * N) / N * N + p % (N * N) % N) = p := by
    have h1 := Nat.div_add_mod p (N * N)
    have h2 := Nat.div_add_mod (p % (N * N)) N
    have h3 : p % (N * N) / N * N = N * (p % (N * N) / N) := Nat.mul_comm _ _
    omega
  simp only [shift, e]

end Identity

/-! ## The running maximum of softmax, and the reference argmax -/

section Maximum

variable {α : Type} [LinearOrderedField α]

/-- What the first loop of `softmax` has computed after `n` iterations: the
greatest of `x[0..n]`. -/
theorem softmax_max_loop_inv (x : Buf α) (n : Nat) :
    (∀ j, j < n + 1 →
        x j ≤ loop (fun i max => if x (1 + i) > max then x (1 + i) else max) n (x 0))
      ∧ ∃ k, k < n + 1
        ∧ loop (fun i max => if x (1 + i) > max then x (1 + i) else max) n (x 0) = x k := by
  induction n with
  | zero =>
    refine ⟨fun j hj => ?_, 0, Nat.zero_lt_one, rfl⟩
    have : j = 0 := by omega
    rw [this]
    exact le_refl _
  | succ n ih =>
    obtain ⟨hle, k, hk, hmem⟩ := ih
    rw [loop_succ]
    by_cases hgt : x (1 + n) > loop (fun i max => if x (1 + i) > max then x (1 + i) else max)
        n (x 0)
    · rw [if_pos hgt]
      refine ⟨fun j hj => ?_, 1 + n, by omega, rfl⟩
      by_cases hjn : j = 1 + n
      · rw [hjn]
      · exact le_trans (hle j (by omega)) (le_of_lt hgt)
    · rw [if_neg hgt]
      refine ⟨fun j hj => ?_, k, by omega, hmem⟩
      by_cases hjn : j = 1 + n
      · rw [hjn]; exact not_lt.mp hgt
      · exact hle j (by omega)

/-- The value `max` of `softmax` bounds every score. -/
theorem softmax_max_ge (x : Buf α) (N i : Nat) (hi : i < N) : x i ≤ softmax_max x N := by
  unfold softmax_max loopFrom
  exact (softmax_max_loop_inv x (N - 1)).1 i (by omega)

/-- The value `max` of `softmax` is one of the scores. -/
theorem softmax_max_mem (x : Buf α) (N : Nat) (hN : 1 ≤ N) :
    ∃ k, k < N ∧ softmax_max x N = x k := by
  unfold softmax_max loopFrom
  obtain ⟨k, hk, hmem⟩ := (softmax_max_loop_inv x (N - 1)).2
  exact ⟨k, by omega, hmem⟩

/-- The invariant of the reference scan: before the first iteration the state
is `(0, ⊥)`, afterwards it is the first index of the largest value seen. -/
theorem find_max_neg_inf_inv (fc : Buf α) (n : Nat) :
    (n = 0 ∧ loop (fun i (s : Nat × WithBot α) =>
        if s.2 < (fc i : WithBot α) then (i, (fc i : WithBot α)) else s) n (0, ⊥) = (0, ⊥))
    ∨ ∃ m, m < n
        ∧ loop (fun i (s : Nat × WithBot α) =>
            if s.2 < (fc i : WithBot α) then (i, (fc i : WithBot α)) else s) n (0, ⊥)
          = (m, (fc m : WithBot α))
        ∧ (∀ i, i < n → fc i ≤ fc m) ∧ ∀ i, i < m → fc i < fc m := by
  induction n with
  | zero => exact Or.inl ⟨rfl, rfl⟩
  | succ n ih =>
    right
    rw [loop_succ]
    rcases ih with ⟨h0, hs⟩ | ⟨m, hm, hs, hle, hfirst⟩
    · rw [hs, if_pos (WithBot.bot_lt_coe (fc n))]
      subst h0
      refine ⟨0, Nat.zero_lt_one, rfl, fun i hi => ?_, fun i hi => absurd hi (Nat.not_lt_zero i)⟩
      have : i = 0 := by omega
      rw [this]
    · rw [hs]
      by_cases hlt : fc m < fc n
      · rw [if_pos (WithBot.coe_lt_coe.mpr hlt)]
        refine ⟨n, Nat.lt_succ_self n, rfl, fun i hi => ?_, fun i hi => ?_⟩
        · rcases Nat.lt_succ_iff_lt_or_eq.mp hi with h | h
          · exact le_trans (hle i h) (le_of_lt hlt)
          · rw [h]
        · exact lt_of_le_of_lt (hle i hi) hlt
      · rw [if_neg (fun h => hlt (WithBot.coe_lt_coe.mp h))]
        refine ⟨m, Nat.lt_succ_of_lt hm, rfl, fun i hi => ?_, hfirst⟩
        rcases Nat.lt_succ_iff_lt_or_eq.mp hi with h | h
        · exact hle i h
        · rw [h]; exact not_lt.mp hlt

/-- The reference scan returns the first index of the largest entry. -/
theorem find_max_neg_inf_first (fc : Buf α) (N : Nat) (hN : 1 ≤ N) :
    find_max_neg_inf fc N < N ∧ (∀ i, i < N → fc i ≤ fc (find_max_neg_inf fc N))
      ∧ ∀ i, i < find_max_neg_inf fc N → fc i < fc (find_max_neg_inf fc N) := by
  unfold find_max_neg_inf
  rcases find_max_neg_inf_inv fc N with ⟨h0, _⟩ | ⟨m, hm, hs, hle, hfirst⟩
  · omega
  · rw [hs]
    exact ⟨hm, hle, hfirst⟩

/-- On non-negative entries `find_max` returns the first index of the largest
entry. -/
theorem find_max_first_of_nonneg (fc : Buf α) (N : Nat) (hN : 1 ≤ N)
    (h : ∀ i, i < N → 0 ≤ fc i) :
    find_max fc N < N ∧ (∀ i, i < N → fc i ≤ fc (find_max fc N))
      ∧ ∀ i, i < find_max fc N → fc i < fc (find_max fc N) := by
  by_cases hex : ∃ m, m < N ∧ 0 < fc m
  · obtain ⟨m, hm, hpos⟩ := hex
    exact find_max_of_pos fc N m hm hpos
  · have hz : ∀ i, i < N → fc i ≤ 0 := fun i hi => not_lt.mp (fun hp => hex ⟨i, hi, hp⟩)
    rw [find_max_of_nonpos fc N hz]
    refine ⟨by omega, fun i hi => ?_, fun i hi => absurd hi (Nat.not_lt_zero i)⟩
    exact le_trans (hz i hi) (h 0 (by omega))

/-- The first index of the largest entry is unique. -/
theorem first_max_unique (fc : Buf α) (N a b : Nat) (ha : a < N) (hb : b < N)
    (hamax : ∀ i, i < N → fc i ≤ fc a) (hafirst : ∀ i, i < a → fc i < fc a)
    (hbmax : ∀ i, i < N → fc i ≤ fc b) (hbfirst : ∀ i, i < b → fc i < fc b) : a = b := by
  rcases Nat.lt_trichotomy a b with h | h | h
  · exact absurd (hbfirst a h) (not_lt.mpr (hamax b hb))
  · exact h
  · exact absurd (hafirst b h) (not_lt.mpr (hbmax a ha))

end Maximum


/-! ## Softmax over the reals: stabilisation and range -/

section SoftmaxRange

theorem softmax_term_le_one (x : Buf ℝ) (N i : Nat) (hi : i < N) :
    Real.exp (x i - softmax_max x N) ≤ 1 := by
  rw [← Real.exp_zero]
  exact Real.exp_le_exp.mpr (sub_nonpos.mpr (softmax_max_ge x N i hi))

/-- The normaliser of `softmax` lies in `[1, N]`. -/
theorem softmax_sum_bounds (x : Buf ℝ) (N : Nat) (hN : 1 ≤ N) :
    1 ≤ softmax_sum Real.exp x N ∧ softmax_sum Real.exp x N ≤ (N : ℝ) := by
  rw [softmax_sum_eq]
  constructor
  · obtain ⟨k, hk, hmem⟩ := softmax_max_mem x N hN
    have h1 : Real.exp (x k - softmax_max x N) = 1 := by
      rw [hmem, sub_self, Real.exp_zero]
    rw [← h1]
    exact Finset.single_le_sum (f := fun i => Real.exp (x i - softmax_max x N))
      (fun i _ => le_of_lt (Real.exp_pos _)) (Finset.mem_range.mpr hk)
  · have h := Finset.sum_le_sum (s := Finset.range N)
      (f := fun i => Real.exp (x i - softmax_max x N)) (g := fun _ => (1 : ℝ))
      (fun i hi => softmax_term_le_one x N i (Finset.mem_range.mp hi))
    simpa using h

/-- The value of `softmax` written without the shift by the maximum. -/
theorem softmax_unshifted (x : Buf ℝ) (N i : Nat) (hi : i < N) :
    softmax Real.exp x N i
      = Real.exp (x i) / ∑ k in Finset.range N, Real.exp (x k) := by
  rw [softmax_apply, if_pos hi, softmax_sum_eq]
  have hS : ∑ k in Finset.range N, Real.exp (x k - softmax_max x N)
      = (∑ k in Finset.range N, Real.exp (x k)) / Real.exp (softmax_max x N) := by
    rw [Finset.sum_div]
    exact Finset.sum_congr rfl (fun k _ => Real.exp_sub _ _)
  rw [hS, Real.exp_sub]
  have hm : Real.exp (softmax_max x N) ≠ 0 := ne_of_gt (Real.exp_pos _)
  field_simp

/-- The largest of the values that `softmax` writes lies in `[1/N, 1]`. -/
theorem softmax_max_value_bounds (x : Buf ℝ) (N m : Nat) (hm : m < N)
    (hmax : ∀ i, i < N → softmax Real.exp x N i ≤ softmax Real.exp x N m) :
    1 / (N : ℝ) ≤ softmax Real.exp x N m ∧ softmax Real.exp x N m ≤ 1 := by
  have hN : 1 ≤ N := by omega
  have htot := softmax_total x N hN
  constructor
  · have h := Finset.sum_le_sum (s := Finset.range N)
      (f := fun i => softmax Real.exp x N i) (g := fun _ => softmax Real.exp x N m)
      (fun i hi => hmax i (Finset.mem_range.mp hi))
    rw [htot] at h
    simp only [Finset.sum_const, Finset.card_range, nsmul_eq_mul] at h
    have hNpos : (0 : ℝ) < (N : ℝ) := by exact_mod_cast hN
    rw [div_le_iff₀ hNpos, mul_comm]
    exact h
  · rw [← htot]
    exact Finset.single_le_sum (f := fun i => softmax Real.exp x N i)
      (fun i hi => le_of_lt (softmax_pos x N i (Finset.mem_range.mp hi)))
      (Finset.mem_range.mpr hm)

/-- What `cnn` writes for an image it has processed lies in the range of a
ten-class distribution. -/
theorem cnn_output_range (kernel : Nat → Nat → Buf ℝ → Buf ℝ) (images : Buf ℝ)
    (network : Nat → Buf ℝ) (s : State ℝ) (n i : Nat) (hi : i < n) :
    0 ≤ (loop (cnn_image Real.exp kernel images network) n s).labels i
      ∧ (loop (cnn_image Real.exp kernel images network) n s).labels i ≤ 9
      ∧ 1 / 10 ≤ (loop (cnn_image Real.exp kernel images network) n s).confidences i
      ∧ (loop (cnn_image Real.exp kernel images network) n s).confidences i ≤ 1 := by
  obtain ⟨b, hl, hc, _⟩ := cnn_loop_result Real.exp kernel images network s n i hi
  rw [hl, hc]
  have hfc : ∃ z : Buf ℝ, (cnn_forward Real.exp kernel network
      (shift images (i * 3 * 32 * 32)) b).fc3 = softmax Real.exp z 10 := ⟨_, rfl⟩
  obtain ⟨z, hz⟩ := hfc
  rw [hz]
  have hlt := find_max_lt (softmax Real.exp z 10) 10 (by decide)
  obtain ⟨_, hmax, _⟩ := find_max_of_pos (softmax Real.exp z 10) 10 0 (by decide)
    (softmax_pos z 10 0 (by decide))
  obtain ⟨h1, h2⟩ := softmax_max_value_bounds z 10 _ hlt hmax
  refine ⟨Int.ofNat_nonneg _, ?_, ?_, h2⟩
  · have : find_max (softmax Real.exp z 10) 10 ≤ 9 := by omega
    exact_mod_cast this
  · have e : (1 : ℝ) / ((10 : Nat) : ℝ) = 1 / 10 := by norm_num
    rw [← e]
    exact h1

end SoftmaxRange


/-! ## The stage table is the image loop -/

section Table

variable {α : Type} [LinearOrderedField α]

/-- The stage calls of `cnn_stages`, run in order, are `cnn_forward` followed by
the `find_max` call of the image loop. -/
theorem cnn_forward_eq_run_stages (exp : α → α) (kernel : Nat → Nat → Buf α → Buf α)
    (network : Nat → Buf α) (image : Buf α) (b : Layers α) (l : Nat) :
    run_stages exp kernel network image cnn_stages (b, l)
      = (cnn_forward exp kernel network image b,
          find_max (cnn_forward exp kernel network image b).fc3 10) := by
  simp only [run_stages, cnn_stages, List.foldl, run_stage, Layers.set, Layers.get]
  rfl

end Table


/-! ## Bounds-checked indexing -/

section Bounds

/-- A loop of checks that all pass, passes. -/
theorem loop_true (body : Nat → Bool → Bool) (n : Nat)
    (h : ∀ i, i < n → body i true = true) : loop body n true = true := by
  induction n with
  | zero => rfl
  | succ n ih =>
    rw [loop_succ, ih (fun i hi => h i (Nat.lt_succ_of_lt hi))]
    exact h n (Nat.lt_succ_self n)

/-- The index of an in-bounds tap lies inside the plane. -/
theorem tap_index_bounds (N : Nat) (x y : Int) (hx0 : x ≥ 0) (hx1 : x < (N : Int))
    (hy0 : y ≥ 0) (hy1 : y < (N : Int)) :
    0 ≤ x * (N : Int) + y ∧ x * (N : Int) + y < ((N * N : Nat) : Int) := by
  constructor
  · exact add_nonneg (mul_nonneg hx0 (Int.ofNat_nonneg N)) hy0
  · have h1 : (x + 1) * (N : Int) ≤ (N : Int) * (N : Int) :=
      mul_le_mul_of_nonneg_right (by omega) (Int.ofNat_nonneg N)
    push_cast
    linarith

theorem convolution3x3_in_bounds_of_le (input_size output_size N : Nat)
    (hin : N * N ≤ input_size) (hout : N * N ≤ output_size) :
    convolution3x3_in_bounds input_size output_size N = true := by
  unfold convolution3x3_in_bounds
  apply loop_true
  intro i hi
  apply loop_true
  intro j hj
  have hinner : loop (fun k ok =>
      loop (fun l ok =>
        let x : Int := (i : Int) + (k : Int) - 1
        let y : Int := (j : Int) + (l : Int) - 1
        if x ≥ 0 ∧ x < (N : Int) ∧ y ≥ 0 ∧ y < (N : Int) then
          ok && decide (0 ≤ x * (N : Int) + y ∧ x * (N : Int) + y < (input_size : Int))
        else ok) 3 ok) 3 true = true := by
    apply loop_true
    intro k _
    apply loop_true
    intro l _
    show (if (i : Int) + (k : Int) - 1 ≥ 0 ∧ (i : Int) + (k : Int) - 1 < (N : Int)
        ∧ (j : Int) + (l : Int) - 1 ≥ 0 ∧ (j : Int) + (l : Int) - 1 < (N : Int) then
      true && decide (0 ≤ ((i : Int) + (k : Int) - 1) * (N : Int) + ((j : Int) + (l : Int) - 1)
        ∧ ((i : Int) + (k : Int) - 1) * (N : Int) + ((j : Int) + (l : Int) - 1)
          < (input_size : Int))
      else true) = true
    by_cases hg : (i : Int) + (k : Int) - 1 ≥ 0 ∧ (i : Int) + (k : Int) - 1 < (N : Int)
        ∧ (j : Int) + (l : Int) - 1 ≥ 0 ∧ (j : Int) + (l : Int) - 1 < (N : Int)
    · rw [if_pos hg]
      obtain ⟨hx0, hx1, hy0, hy1⟩ := hg
      obtain ⟨h0, h1⟩ := tap_index_bounds N _ _ hx0 hx1 hy0 hy1
      have h2 : ((N * N : Nat) : Int) ≤ (input_size : Int) := by exact_mod_cast hin
      rw [Bool.true_and, decide_eq_true_eq]
      exact ⟨h0, lt_of_lt_of_le h1 h2⟩
    · rw [if_neg hg]
  show (loop (fun k ok =>
      loop (fun l ok =>
        let x : Int := (i : Int) + (k : Int) - 1
        let y : Int := (j : Int) + (l : Int) - 1
        if x ≥ 0 ∧ x < (N : Int) ∧ y ≥ 0 ∧ y < (N : Int) then
          ok && decide (0 ≤ x * (N : Int) + y ∧ x * (N : Int) + y < (input_size : Int))
        else ok) 3 ok) 3 true && decide (i * N + j < output_size)) = true
  rw [hinner, Bool.true_and, decide_eq_true_eq]
  have h1 : (i + 1) * N ≤ N * N := Nat.mul_le_mul_right N hi
  have h2 : (i + 1) * N = i * N + N := Nat.succ_mul i N
  omega

theorem convolution_layer_in_bounds_of_le (inputs_size outputs_size D2 D1 N : Nat)
    (hin : D1 * N * N ≤ inputs_size) (hout : D2 * N * N ≤ outputs_size) :
    convolution_layer_in_bounds inputs_size outputs_size D2 D1 N = true := by
  have hin' : N * N * D1 ≤ inputs_size := by
    have e : N * N * D1 = D1 * N * N := by rw [Nat.mul_comm (N * N) D1, Nat.mul_assoc]
    omega
  have hout' : N * N * D2 ≤ outputs_size := by
    have e : N * N * D2 = D2 * N * N := by rw [Nat.mul_comm (N * N) D2, Nat.mul_assoc]
    omega
  have hblock : ∀ D size k, N * N * D ≤ size → k < D → N * N ≤ size - N * N * k := by
    intro D size k hsize hk
    have h1 : N * N * (k + 1) ≤ N * N * D := Nat.mul_le_mul_left (N * N) hk
    have h2 : N * N * (k + 1) = N * N * k + N * N := Nat.mul_succ (N * N) k
    omega
  unfold convolution_layer_in_bounds
  have h1 : decide (N * N * D2 ≤ outputs_size) = true := decide_eq_true hout'
  have h2 : loop (fun j ok =>
      loop (fun i ok =>
        ok && convolution3x3_in_bounds (inputs_size - N * N * i) (outputs_size - N * N * j) N)
        D1 ok) D2 true = true := by
    apply loop_true
    intro j hj
    apply loop_true
    intro i hi
    rw [Bool.true_and]
    exact convolution3x3_in_bounds_of_le _ _ N (hblock D1 inputs_size i hin' hi)
      (hblock D2 outputs_size j hout' hj)
  simp only [h1, h2]
  apply loop_true
  intro i hi
  apply loop_true
  intro j hj
  rw [Bool.true_and, decide_eq_true_eq]
  have := hblock D2 outputs_size i hout' hi
  omega

theorem fc_layer_in_bounds_of_le (input_size output_size M N : Nat)
    (hin : N ≤ input_size) (hout : M ≤ output_size) :
    fc_layer_in_bounds input_size output_size M N = true := by
  unfold fc_layer_in_bounds
  apply loop_true
  intro j hj
  have h : loop (fun i ok => ok && decide (i < input_size)) N true = true := by
    apply loop_true
    intro i hi
    rw [Bool.true_and, decide_eq_true_eq]
    omega
  show (loop (fun i ok => ok && decide (i < input_size)) N true && decide (j < output_size))
    = true
  rw [h, Bool.true_and, decide_eq_true_eq]
  omega

theorem find_max_in_bounds_of_le (fc_size N : Nat) (h : N ≤ fc_size) :
    find_max_in_bounds fc_size N = true := by
  unfold find_max_in_bounds
  apply loop_true
  intro i hi
  rw [Bool.true_and, decide_eq_true_eq]
  omega

theorem softmax_in_bounds_of_le (output_size N : Nat) (hN : 1 ≤ N) (h : N ≤ output_size) :
    softmax_in_bounds output_size N = true := by
  unfold softmax_in_bounds loopFrom
  have h0 : decide (0 < output_size) = true := decide_eq_true (by omega)
  have h1 : loop (fun i ok => ok && decide (1 + i < output_size)) (N - 1) true = true := by
    apply loop_true
    intro i hi
    rw [Bool.true_and, decide_eq_true_eq]
    omega
  have h2 : loop (fun i ok => ok && decide (i < output_size)) N true = true :=
    find_max_in_bounds_of_le output_size N h
  simp only [h0, h1, h2]

theorem pooling_layer_in_bounds_of_le (inputs_size outputs_size D N : Nat)
    (hin : D * (2 * N) * (2 * N) ≤ inputs_size) (hout : D * N * N ≤ outputs_size) :
    pooling_layer_in_bounds inputs_size outputs_size D N = true := by
  unfold pooling_layer_in_bounds
  rw [Nat.mul_comm N 2]
  rw [decide_eq_true hin, decide_eq_true hout]
  rfl

/-- A stage whose extents fit its buffers indexes inside them. -/
theorem Stage.in_bounds_of_extents (size : BufId → Nat) (st : Stage)
    (hN : ∀ out N, st = Stage.softmax out N → 1 ≤ N)
    (hr : st.reads ≤ size st.src)
    (hw : ∀ d, st.dst = some d → st.writes ≤ size d) :
    st.in_bounds size = true := by
  cases st with
  | convolution_layer inputs outputs filters biases D2 D1 N =>
    exact convolution_layer_in_bounds_of_le _ _ D2 D1 N hr (hw outputs rfl)
  | pooling_layer inputs outputs D N =>
    exact pooling_layer_in_bounds_of_le _ _ D N hr (hw outputs rfl)
  | fc_layer input_neuron output_neuron weights biases M N =>
    exact fc_layer_in_bounds_of_le _ _ M N hr (hw output_neuron rfl)
  | softmax output N =>
    exact softmax_in_bounds_of_le _ N (hN output N rfl) hr
  | find_max fc N =>
    exact find_max_in_bounds_of_le _ N hr

end Bounds


/-! ## Host control flow -/

section Host

theorem checked_call_returned (status : ClCall → Int) (c : ClCall) (rest : DeviceRun)
    (h : (checked_call status c rest).exited = false) :
    status c = CL_SUCCESS ∧ rest.exited = false
      ∧ (checked_call status c rest).made = c :: rest.made := by
  unfold checked_call at h ⊢
  by_cases hc : status c ≠ CL_SUCCESS
  · rw [if_pos hc] at h
    exact Bool.noConfusion h
  · rw [if_neg hc] at h ⊢
    exact ⟨not_not.mp hc, h, rfl⟩

/-- When `pooling_layer` returns, the eight device calls it checks have
succeeded. -/
theorem pooling_layer_calls_returned (status : ClCall → Int)
    (h : (pooling_layer_calls status).exited = false) :
    status .clCreateBuffer_input = CL_SUCCESS ∧ status .clCreateBuffer_output = CL_SUCCESS
      ∧ status (.clSetKernelArg 0) = CL_SUCCESS ∧ status (.clSetKernelArg 1) = CL_SUCCESS
      ∧ status (.clSetKernelArg 2) = CL_SUCCESS ∧ status (.clSetKernelArg 3) = CL_SUCCESS
      ∧ status .clEnqueueNDRangeKernel = CL_SUCCESS
      ∧ status .clEnqueueReadBuffer = CL_SUCCESS := by
  unfold pooling_layer_calls at h
  obtain ⟨h1, h, _⟩ := checked_call_returned _ _ _ h
  obtain ⟨h2, h, _⟩ := checked_call_returned _ _ _ h
  obtain ⟨h3, h, _⟩ := checked_call_returned _ _ _ h
  obtain ⟨h4, h, _⟩ := checked_call_returned _ _ _ h
  obtain ⟨h5, h, _⟩ := checked_call_returned _ _ _ h
  obtain ⟨h6, h, _⟩ := checked_call_returned _ _ _ h
  obtain ⟨h7, h, _⟩ := checked_call_returned _ _ _ h
  obtain ⟨h8, _, _⟩ := checked_call_returned _ _ _ h
  exact ⟨h1, h2, h3, h4, h5, h6, h7, h8⟩

/-- When `cnn_init` returns, every device call it made has succeeded: the two
unchecked `clGetProgramBuildInfo` calls are only made on the path that exits. -/
theorem cnn_init_calls_returned (status : ClCall → Int) (fd : Int) (malloc_ok : Nat → Bool)
    (h : (cnn_init_calls status fd malloc_ok).exited = false) :
    ∀ c ∈ (cnn_init_calls status fd malloc_ok).made, status c = CL_SUCCESS := by
  unfold cnn_init_calls at h ⊢
  obtain ⟨h1, h, e1⟩ := checked_call_returned _ _ _ h
  obtain ⟨h2, h, e2⟩ := checked_call_returned _ _ _ h
  obtain ⟨h3, h, e3⟩ := checked_call_returned _ _ _ h
  obtain ⟨h4, h, e4⟩ := checked_call_returned _ _ _ h
  rw [e1, e2, e3, e4]
  by_cases hs : (GetSourceCode fd (malloc_ok 0)).exited = true
  · rw [if_pos hs] at h
    exact Bool.noConfusion h
  · rw [if_neg hs] at h ⊢
    obtain ⟨h5, h, e5⟩ := checked_call_returned _ _ _ h
    rw [e5]
    by_cases hb : status .clBuildProgram = CL_BUILD_PROGRAM_FAILURE
    · rw [if_pos hb] at h
      by_cases hm : malloc_ok 1 = true
      · rw [if_pos hm] at h
        exact Bool.noConfusion h
      · rw [if_neg hm] at h
        exact Bool.noConfusion h
    · rw [if_neg hb] at h ⊢
      obtain ⟨h6, h, e6⟩ := checked_call_returned _ _ _ h
      obtain ⟨h7, _, e7⟩ := checked_call_returned _ _ _ h
      rw [e6, e7]
      intro c hc
      simp only [List.mem_cons, List.mem_singleton, List.not_mem_nil, or_false] at hc
      rcases hc with rfl | rfl | rfl | rfl | rfl | rfl | rfl
      · exact h1
      · exact h2
      · exact h3
      · exact h4
      · exact h5
      · exact h6
      · exact h7

/-- No run of `cnn` ends in a diagnostic and `exit` on account of its buffers. -/
theorem cnn_host_never_exits (heap : BufId → Nat → Option Nat) (images : Option Nat)
    (num_images : Nat) : cnn_host heap images num_images ≠ HostRun.exit_failure := by
  unfold cnn_host
  by_cases h0 : num_images = 0
  · simp [h0]
  · simp only [if_neg h0]
    split <;> simp

end Host


/-! ## The bounds checks are exact -/

section BoundsExact

/-- A loop of checks that passes started from a pass, and each of its checks
passes. -/
theorem loop_checks (body : Nat → Bool → Bool)
    (hmono : ∀ i s, body i s = true → s = true) (n : Nat) (s : Bool)
    (h : loop body n s = true) : s = true ∧ ∀ i, i < n → body i true = true := by
  induction n with
  | zero => exact ⟨h, fun i hi => absurd hi (Nat.not_lt_zero i)⟩
  | succ n ih =>
    rw [loop_succ] at h
    have hn : loop body n s = true := hmono n _ h
    obtain ⟨hs, hall⟩ := ih hn
    refine ⟨hs, fun i hi => ?_⟩
    rcases Nat.lt_succ_iff_lt_or_eq.mp hi with hlt | heq
    · exact hall i hlt
    · rw [heq]
      rw [hn] at h
      exact h

theorem and_check_mono (c : Nat → Bool) (i : Nat) (s : Bool) (h : (s && c i) = true) :
    s = true := by
  cases s
  · exact h
  · rfl

theorem convolution3x3_in_bounds_exact (input_size output_size N : Nat) (hN : 1 ≤ N)
    (h : convolution3x3_in_bounds input_size output_size N = true) :
    N * N ≤ input_size ∧ N * N ≤ output_size := by
  unfold convolution3x3_in_bounds at h
  have mono_l : ∀ (i j k l : Nat) (s : Bool),
      (if (i : Int) + (k : Int) - 1 ≥ 0 ∧ (i : Int) + (k : Int) - 1 < (N : Int)
          ∧ (j : Int) + (l : Int) - 1 ≥ 0 ∧ (j : Int) + (l : Int) - 1 < (N : Int) then
        s && decide (0 ≤ ((i : Int) + (k : Int) - 1) * (N : Int) + ((j : Int) + (l : Int) - 1)
          ∧ ((i : Int) + (k : Int) - 1) * (N : Int) + ((j : Int) + (l : Int) - 1)
            < (input_size : Int))
      else s) = true → s = true := by
    intro i j k l s hs
    cases s
    · by_cases hg : (i : Int) + (k : Int) - 1 ≥ 0 ∧ (i : Int) + (k : Int) - 1 < (N : Int)
          ∧ (j : Int) + (l : Int) - 1 ≥ 0 ∧ (j : Int) + (l : Int) - 1 < (N : Int)
      · rw [if_pos hg] at hs; exact hs
      · rw [if_neg hg] at hs; exact hs
    · rfl
  have mono_k : ∀ (i j k : Nat) (s : Bool),
      loop (fun l ok =>
        let x : Int := (i : Int) + (k : Int) - 1
        let y : Int := (j : Int) + (l : Int) - 1
        if x ≥ 0 ∧ x < (N : Int) ∧ y ≥ 0 ∧ y < (N : Int) then
          ok && decide (0 ≤ x * (N : Int) + y ∧ x * (N : Int) + y < (input_size : Int))
        else ok) 3 s = true → s = true :=
    fun i j k s hs => (loop_checks _ (fun l s => mono_l i j k l s) 3 s hs).1
  have mono_j : ∀ (i j : Nat) (s : Bool),
      ((loop (fun k ok =>
        loop (fun l ok =>
          let x : Int := (i : Int) + (k : Int) - 1
          let y : Int := (j : Int) + (l : Int) - 1
          if x ≥ 0 ∧ x < (N : Int) ∧ y ≥ 0 ∧ y < (N : Int) then
            ok && decide (0 ≤ x * (N : Int) + y ∧ x * (N : Int) + y < (input_size : Int))
          else ok) 3 ok) 3 s) && decide (i * N + j < output_size)) = true → s = true := by
    intro i j s hs
    have h1 := and_check_mono (fun _ => decide (i * N + j < output_size)) 0 _ hs
    exact (loop_checks _ (fun k s => mono_k i j k s) 3 s h1).1
  have mono_i : ∀ (i : Nat) (s : Bool),
      loop (fun j ok =>
        let ok :=
          loop (fun k ok =>
            loop (fun l ok =>
              let x : Int := (i : Int) + (k : Int) - 1
              let y : Int := (j : Int) + (l : Int) - 1
              if x ≥ 0 ∧ x < (N : Int) ∧ y ≥ 0 ∧ y < (N : Int) then
                ok && decide (0 ≤ x * (N : Int) + y ∧ x * (N : Int) + y < (input_size : Int))
              else ok) 3 ok) 3 ok
        ok && decide (i * N + j < output_size)) N s = true → s = true :=
    fun i s hs => (loop_checks _ (fun j s => mono_j i j s) N s hs).1
  have hi := (loop_checks _ mono_i N true h).2 (N - 1) (by omega)
  have hj := (loop_checks _ (fun j s => mono_j (N - 1) j s) N true hi).2 (N - 1) (by omega)
  have hj' : ((loop (fun k ok =>
        loop (fun l ok =>
          let x : Int := ((N - 1 : Nat) : Int) + (k : Int) - 1
          let y : Int := ((N - 1 : Nat) : Int) + (l : Int) - 1
          if x ≥ 0 ∧ x < (N : Int) ∧ y ≥ 0 ∧ y < (N : Int) then
            ok && decide (0 ≤ x * (N : Int) + y ∧ x * (N : Int) + y < (input_size : Int))
          else ok) 3 ok) 3 true)
      && decide ((N - 1) * N + (N - 1) < output_size)) = true := hj
  rw [Bool.and_eq_true, decide_eq_true_eq] at hj'
  obtain ⟨hk, hout⟩ := hj'
  have hk1 := (loop_checks _ (fun k s => mono_k (N - 1) (N - 1) k s) 3 true hk).2 1 (by decide)
  have hl1 := (loop_checks _ (fun l s => mono_l (N - 1) (N - 1) 1 l s) 3 true hk1).2 1
    (by decide)
  have hg : ((N - 1 : Nat) : Int) + ((1 : Nat) : Int) - 1 ≥ 0
      ∧ ((N - 1 : Nat) : Int) + ((1 : Nat) : Int) - 1 < (N : Int)
      ∧ ((N - 1 : Nat) : Int) + ((1 : Nat) : Int) - 1 ≥ 0
      ∧ ((N - 1 : Nat) : Int) + ((1 : Nat) : Int) - 1 < (N : Int) := by
    omega
  have hl1' : (if ((N - 1 : Nat) : Int) + ((1 : Nat) : Int) - 1 ≥ 0
        ∧ ((N - 1 : Nat) : Int) + ((1 : Nat) : Int) - 1 < (N : Int)
        ∧ ((N - 1 : Nat) : Int) + ((1 : Nat) : Int) - 1 ≥ 0
        ∧ ((N - 1 : Nat) : Int) + ((1 : Nat) : Int) - 1 < (N : Int) then
      true && decide (0 ≤ (((N - 1 : Nat) : Int) + ((1 : Nat) : Int) - 1) * (N : Int)
          + (((N - 1 : Nat) : Int) + ((1 : Nat) : Int) - 1)
        ∧ (((N - 1 : Nat) : Int) + ((1 : Nat) : Int) - 1) * (N : Int)
          + (((N - 1 : Nat) : Int) + ((1 : Nat) : Int) - 1) < (input_size : Int))
      else true) = true := hl1
  rw [if_pos hg, Bool.true_and, decide_eq_true_eq] at hl1'
  have e1 : (N - 1) * N + (N - 1) + 1 = N * N := by
    obtain ⟨m, rfl⟩ : ∃ m, N = m + 1 := ⟨N - 1, by omega⟩
    simp only [Nat.add_sub_cancel]
    ring
  constructor
  · have e2 : (((N - 1 : Nat) : Int) + ((1 : Nat) : Int) - 1) * (N : Int)
        + (((N - 1 : Nat) : Int) + ((1 : Nat) : Int) - 1)
        = (((N - 1) * N + (N - 1) : Nat) : Int) := by
      push_cast
      ring
    rw [e2] at hl1'
    have : (N - 1) * N + (N - 1) < input_size := by exact_mod_cast hl1'.2
    omega
  · omega

theorem convolution_layer_in_bounds_exact (inputs_size outputs_size D2 D1 N : Nat)
    (hD2 : 1 ≤ D2) (hD1 : 1 ≤ D1) (hN : 1 ≤ N)
    (h : convolution_layer_in_bounds inputs_size outputs_size D2 D1 N = true) :
    D1 * N * N ≤ inputs_size ∧ D2 * N * N ≤ outputs_size := by
  unfold convolution_layer_in_bounds at h
  have mono3 : ∀ (i : Nat) (s : Bool),
      loop (fun j ok => ok && decide (j < outputs_size - N * N * i)) (N * N) s = true
        → s = true :=
    fun i s hs => (loop_checks _ (fun j s =>
      and_check_mono (fun j => decide (j < outputs_size - N * N * i)) j s) (N * N) s hs).1
  have mono2 : ∀ (j : Nat) (s : Bool),
      loop (fun i ok =>
        ok && convolution3x3_in_bounds (inputs_size - N * N * i) (outputs_size - N * N * j) N)
        D1 s = true → s = true :=
    fun j s hs => (loop_checks _ (fun i s => and_check_mono (fun i =>
      convolution3x3_in_bounds (inputs_size - N * N * i) (outputs_size - N * N * j) N) i s)
      D1 s hs).1
  have h2 := (loop_checks _ mono3 D2 _ h).1
  obtain ⟨hmem, hall⟩ := loop_checks _ mono2 D2 _ h2
  have h0 := hall 0 (by omega)
  have hlast := (loop_checks _ (fun i s => and_check_mono
    (fun i => convolution3x3_in_bounds (inputs_size - N * N * i) (outputs_size - N * N * 0) N)
    i s) D1 true h0).2 (D1 - 1) (by omega)
  have hlast' : (true && convolution3x3_in_bounds (inputs_size - N * N * (D1 - 1))
      (outputs_size - N * N * 0) N) = true := hlast
  rw [Bool.true_and] at hlast'
  obtain ⟨hin, _⟩ := convolution3x3_in_bounds_exact _ _ N hN hlast'
  have hNN : 1 ≤ N * N := Nat.mul_pos hN hN
  have hout : N * N * D2 ≤ outputs_size := of_decide_eq_true hmem
  have e1 : N * N * (D1 - 1) + N * N = D1 * N * N := by
    obtain ⟨m, rfl⟩ : ∃ m, D1 = m + 1 := ⟨D1 - 1, by omega⟩
    simp only [Nat.add_sub_cancel]
    ring
  have e2 : N * N * D2 = D2 * N * N := by ring
  constructor
  · omega
  · omega

theorem fc_layer_in_bounds_exact (input_size output_size M N : Nat) (hM : 1 ≤ M)
    (hN : 1 ≤ N) (h : fc_layer_in_bounds input_size output_size M N = true) :
    N ≤ input_size ∧ M ≤ output_size := by
  unfold fc_layer_in_bounds at h
  have mono_i : ∀ (s : Bool),
      loop (fun i ok => ok && decide (i < input_size)) N s = true → s = true :=
    fun s hs => (loop_checks _ (fun i s =>
      and_check_mono (fun i => decide (i < input_size)) i s) N s hs).1
  have mono_j : ∀ (j : Nat) (s : Bool),
      (loop (fun i ok => ok && decide (i < input_size)) N s && decide (j < output_size))
        = true → s = true :=
    fun j s hs => mono_i s (and_check_mono (fun _ => decide (j < output_size)) 0 _ hs)
  have hj := (loop_checks _ mono_j M true h).2 (M - 1) (by omega)
  have hj' : (loop (fun i ok => ok && decide (i < input_size)) N true
      && decide (M - 1 < output_size)) = true := hj
  rw [Bool.and_eq_true, decide_eq_true_eq] at hj'
  obtain ⟨hin, hout⟩ := hj'
  have hi := (loop_checks _ (fun i s =>
    and_check_mono (fun i => decide (i < input_size)) i s) N true hin).2 (N - 1) (by omega)
  have hi' : (true && decide (N - 1 < input_size)) = true := hi
  rw [Bool.true_and, decide_eq_true_eq] at hi'
  constructor <;> omega

theorem find_max_in_bounds_exact (fc_size N : Nat) (hN : 1 ≤ N)
    (h : find_max_in_bounds fc_size N = true) : N ≤ fc_size := by
  unfold find_max_in_bounds at h
  have hi := (loop_checks _ (fun i s =>
    and_check_mono (fun i => decide (i < fc_size)) i s) N true h).2 (N - 1) (by omega)
  have hi' : (true && decide (N - 1 < fc_size)) = true := hi
  rw [Bool.true_and, decide_eq_true_eq] at hi'
  omega

theorem softmax_in_bounds_exact (output_size N : Nat) (hN : 1 ≤ N)
    (h : softmax_in_bounds output_size N = true) : N ≤ output_size := by
  have h' : loop (fun i ok => ok && decide (i < output_size)) N
      (loop (fun i ok => ok && decide (i < output_size)) N
        (loopFrom 1 N (fun i ok => ok && decide (i < output_size))
          (decide (0 < output_size)))) = true := h
  have hi := (loop_checks _ (fun i s =>
    and_check_mono (fun i => decide (i < output_size)) i s) N _ h').2 (N - 1) (by omega)
  have hi' : (true && decide (N - 1 < output_size)) = true := hi
  rw [Bool.true_and, decide_eq_true_eq] at hi'
  omega

theorem pooling_layer_in_bounds_exact (inputs_size outputs_size D N : Nat)
    (h : pooling_layer_in_bounds inputs_size outputs_size D N = true) :
    D * (2 * N) * (2 * N) ≤ inputs_size ∧ D * N * N ≤ outputs_size := by
  unfold pooling_layer_in_bounds at h
  rw [Bool.and_eq_true, decide_eq_true_eq, decide_eq_true_eq, Nat.mul_comm N 2] at h
  exact h

/-- For a stage with positive dimensions the bounds checks pass exactly when the
buffers hold at least the floats that the stage reads and writes. -/
theorem Stage.in_bounds_iff (size : BufId → Nat) (st : Stage) (hpos : st.positive = true) :
    st.in_bounds size = true
      ↔ st.reads ≤ size st.src ∧ ∀ d, st.dst = some d → st.writes ≤ size d := by
  cases st with
  | convolution_layer inputs outputs filters biases D2 D1 N =>
    obtain ⟨h2, h1, hN⟩ : 1 ≤ D2 ∧ 1 ≤ D1 ∧ 1 ≤ N := of_decide_eq_true hpos
    constructor
    · intro h
      obtain ⟨a, b⟩ := convolution_layer_in_bounds_exact _ _ D2 D1 N h2 h1 hN h
      exact ⟨a, fun d hd => by cases hd; exact b⟩
    · rintro ⟨a, b⟩
      exact convolution_layer_in_bounds_of_le _ _ D2 D1 N a (b outputs rfl)
  | pooling_layer inputs outputs D N =>
    constructor
    · intro h
      obtain ⟨a, b⟩ := pooling_layer_in_bounds_exact _ _ D N h
      exact ⟨a, fun d hd => by cases hd; exact b⟩
    · rintro ⟨a, b⟩
      exact pooling_layer_in_bounds_of_le _ _ D N a (b outputs rfl)
  | fc_layer input_neuron output_neuron weights biases M N =>
    obtain ⟨hM, hN⟩ : 1 ≤ M ∧ 1 ≤ N := of_decide_eq_true hpos
    constructor
    · intro h
      obtain ⟨a, b⟩ := fc_layer_in_bounds_exact _ _ M N hM hN h
      exact ⟨a, fun d hd => by cases hd; exact b⟩
    · rintro ⟨a, b⟩
      exact fc_layer_in_bounds_of_le _ _ M N a (b output_neuron rfl)
  | softmax output N =>
    have hN : 1 ≤ N := of_decide_eq_true hpos
    constructor
    · intro h
      have a := softmax_in_bounds_exact _ N hN h
      exact ⟨a, fun d hd => by cases hd; exact a⟩
    · rintro ⟨a, _⟩
      exact softmax_in_bounds_of_le _ N hN a
  | find_max fc N =>
    have hN : 1 ≤ N := of_decide_eq_true hpos
    constructor
    · intro h
      exact ⟨find_max_in_bounds_exact _ N hN h, fun d hd => by cases hd⟩
    · rintro ⟨a, _⟩
      exact find_max_in_bounds_of_le _ N a

end BoundsExact


/-! ## Softmax with any exponential

What the stabilisation gives for every function `exp` that is `1` at `0`, at most
`1` on the non-positive arguments and never negative: the real exponential, and
also the exponential of the C library, which underflows to `0`. -/

section SoftmaxAnyExp

variable {α : Type} [LinearOrderedField α]

theorem softmax_term_bounds (exp : α → α) (hle : ∀ a, a ≤ 0 → exp a ≤ 1)
    (hnn : ∀ a, 0 ≤ exp a) (x : Buf α) (N i : Nat) (hi : i < N) :
    x i - softmax_max x N ≤ 0 ∧ 0 ≤ exp (x i - softmax_max x N)
      ∧ exp (x i - softmax_max x N) ≤ 1 :=
  ⟨sub_nonpos.mpr (softmax_max_ge x N i hi), hnn _,
    hle _ (sub_nonpos.mpr (softmax_max_ge x N i hi))⟩

/-- The normaliser of `softmax` lies in `[1, N]`: the term of the maximum is
`exp 0 = 1`, no term is negative, and no term exceeds `1`. -/
theorem softmax_sum_bounds_any (exp : α → α) (h0 : exp 0 = 1)
    (hle : ∀ a, a ≤ 0 → exp a ≤ 1) (hnn : ∀ a, 0 ≤ exp a) (x : Buf α) (N : Nat)
    (hN : 1 ≤ N) :
    1 ≤ softmax_sum exp x N ∧ softmax_sum exp x N ≤ (N : α) := by
  rw [softmax_sum_eq]
  constructor
  · obtain ⟨k, hk, hmem⟩ := softmax_max_mem x N hN
    have h1 : exp (x k - softmax_max x N) = 1 := by
      rw [hmem, sub_self, h0]
    rw [← h1]
    exact Finset.single_le_sum (f := fun i => exp (x i - softmax_max x N))
      (fun i _ => hnn _) (Finset.mem_range.mpr hk)
  · have h := Finset.sum_le_sum (s := Finset.range N)
      (f := fun i => exp (x i - softmax_max x N)) (g := fun _ => (1 : α))
      (fun i hi => (softmax_term_bounds exp hle hnn x N i (Finset.mem_range.mp hi)).2.2)
    simpa using h

theorem ex_exp_zero : ex_exp 0 = 1 := by
  norm_num [ex_exp]

theorem ex_exp_le_one (a : ℚ) (ha : a ≤ 0) : ex_exp a ≤ 1 := by
  unfold ex_exp
  by_cases h1 : a < -745
  · rw [if_pos h1]
    exact zero_le_one
  · rw [if_neg h1, if_pos ha]
    have hpos : (0 : ℚ) < 1 - a := by linarith
    rw [div_le_one hpos]
    linarith

theorem ex_exp_nonneg (a : ℚ) : 0 ≤ ex_exp a := by
  unfold ex_exp
  by_cases h1 : a < -745
  · rw [if_pos h1]
  · rw [if_neg h1]
    by_cases h2 : a ≤ 0
    · rw [if_pos h2]
      have hpos : (0 : ℚ) < 1 - a := by linarith
      exact le_of_lt (div_pos one_pos hpos)
    · rw [if_neg h2]
      linarith

theorem ex_scores_max : softmax_max ex_scores 3 = 2000 := by
  norm_num [softmax_max, loopFrom, loop, ex_scores]

end SoftmaxAnyExp


/-! ## The claims -/

section Claims

variable {α : Type} [LinearOrderedField α]

/-- C1: `convolution_layer` computes the zero-padded 3×3 cross-correlation with
bias and ReLU.  For every `D1`, `D2`, `N`, all buffers and EVERY initial content of
`outputs`, the cell `(j, x, y)` of the output, `j < D2` and `x, y < N`, is
`max(0, biases[j] + Σ inputs[i*N*N + (x+k-1)*N + (y+l-1)] * filters[9*(j*D1+i) + 3*k + l])`,
the sum taken over `i < D1` and the taps `k, l < 3` that fall inside the plane;
so the cell is the same whatever `outputs` held before the call. -/
theorem convolution_layer_computes_padded_correlation
    (inputs outputs filters biases : Buf α) (D2 D1 N j x y : Nat)
    (hj : j < D2) (hx : x < N) (hy : y < N) :
    convolution_layer inputs outputs filters biases D2 D1 N (j * N * N + x * N + y)
        = max 0 (biases j
            + ∑ i in Finset.range D1, ∑ k in Finset.range 3, ∑ l in Finset.range 3,
                if 0 ≤ (x : Int) + (k : Int) - 1 ∧ (x : Int) + (k : Int) - 1 < (N : Int)
                    ∧ 0 ≤ (y : Int) + (l : Int) - 1 ∧ (y : Int) + (l : Int) - 1 < (N : Int) then
                  inputs ((i : Int) * (N : Int) * (N : Int)
                      + ((x : Int) + (k : Int) - 1) * (N : Int)
                      + ((y : Int) + (l : Int) - 1)).toNat
                    * filters (9 * (j * D1 + i) + 3 * k + l)
                else 0)
      ∧ ∀ outputs' : Buf α,
          convolution_layer inputs outputs' filters biases D2 D1 N (j * N * N + x * N + y)
            = convolution_layer inputs outputs filters biases D2 D1 N (j * N * N + x * N + y) := by
  constructor
  · rw [convolution_layer_cell _ _ _ _ _ _ _ _ _ _ hj hx hy, ReLU_eq_max, conv_acc_eq, add_comm]
  · intro outputs'
    rw [convolution_layer_cell _ _ _ _ _ _ _ _ _ _ hj hx hy,
      convolution_layer_cell _ _ _ _ _ _ _ _ _ _ hj hx hy]

/-- C2: `fc_layer` computes a dense layer with ReLU.  For every `M`, `N` and all
buffers, after the call `output_neuron[p]` is
`max(0, biases[p] + Σ_{i < N} input_neuron[i] * weights[p*N + i])` for `p < M`, and
every other cell of `output_neuron` holds what it held before. -/
theorem fc_layer_computes_dense_relu
    (input_neuron output_neuron weights biases : Buf α) (M N p : Nat) :
    fc_layer input_neuron output_neuron weights biases M N p
      = if p < M then
          max 0 (biases p + ∑ i in Finset.range N, input_neuron i * weights (p * N + i))
        else output_neuron p := by
  rw [fc_layer_apply]
  by_cases hp : p < M
  · rw [if_pos hp, if_pos hp, ReLU_eq_max, add_comm]
  · rw [if_neg hp, if_neg hp]

/-- C3: `softmax` yields a probability distribution.  For every `N ≥ 1` and every
vector of real scores, of any magnitude, every `output[i]` with `i < N` is
strictly positive after the call and `output[0..N-1]` sums to `1`. -/
theorem softmax_is_probability_distribution (x : Buf ℝ) (N : Nat) (hN : 1 ≤ N) :
    (∀ i, i < N → 0 < softmax Real.exp x N i)
      ∧ ∑ i in Finset.range N, softmax Real.exp x N i = 1 :=
  ⟨fun i hi => softmax_pos x N i hi, softmax_total x N hN⟩

/-- C4: label selection returns the index of the maximum, and that value as the
confidence.  For every vector `p` of length `N ≥ 1` with all entries strictly
positive (as `softmax` produces), `label = find_max(p, N)` satisfies `label < N`
and `p[label] ≥ p[i]` for every `i < N`, so `p[label]` is the greatest value of
`p`; and the iteration of the image loop of `cnn` stores `find_max(fc3, 10)` as the
label and `fc3[label]` as the confidence. -/
theorem find_max_selects_maximum (p : Buf α) (N : Nat) (hN : 1 ≤ N)
    (hpos : ∀ i, i < N → 0 < p i)
    (exp : α → α) (kernel : Nat → Nat → Buf α → Buf α) (images : Buf α)
    (network : Nat → Buf α) (n : Nat) (s : State α) :
    find_max p N < N
      ∧ (∀ i, i < N → p i ≤ p (find_max p N))
      ∧ IsGreatest {v | ∃ i, i < N ∧ p i = v} (p (find_max p N))
      ∧ (cnn_image exp kernel images network n s).labels n
          = ((find_max (cnn_image exp kernel images network n s).layers.fc3 10 : Nat) : Int)
      ∧ (cnn_image exp kernel images network n s).confidences n
          = (cnn_image exp kernel images network n s).layers.fc3
              (find_max (cnn_image exp kernel images network n s).layers.fc3 10) := by
  obtain ⟨hlt, hle, _⟩ := find_max_of_pos p N 0 (by omega) (hpos 0 (by omega))
  refine ⟨hlt, hle, ⟨⟨_, hlt, rfl⟩, ?_⟩, ?_, ?_⟩
  · rintro v ⟨i, hi, rfl⟩
    exact hle i hi
  · simp only [cnn_image, Function.update_same]
  · simp only [cnn_image, Function.update_same, Int.toNat_ofNat]

/-- C5: the end-to-end zero case.  `cnn` on a batch of one all-zero image, with a
network whose 32 tensors are all zero and 2×2 max-pooling as the pooling kernel,
leaves the uniform distribution in `fc3` (each of the 10 entries is `1/10`) and
writes `labels[0] = 0` and `confidences[0] = 1/10`, whatever the buffers and the
output arrays held before. -/
theorem cnn_zero_image_zero_network (layers : Layers ℝ) (labels : Nat → Int)
    (confidences : Buf ℝ) :
    (∀ k : Fin 10,
        (cnn Real.exp max_pooling (fun _ => 0) (fun _ _ => 0) layers labels confidences 1).layers.fc3
          k.val = 1 / 10)
      ∧ (cnn Real.exp max_pooling (fun _ => 0) (fun _ _ => 0) layers labels confidences 1).labels 0
          = 0
      ∧ (cnn Real.exp max_pooling (fun _ => 0) (fun _ _ => 0) layers labels confidences
          1).confidences 0 = 1 / 10 := by
  obtain ⟨h1, h2, h3⟩ := cnn_image_zero_head max_pooling (fun _ => 0) (fun _ _ => 0) 0
    { layers := layers, labels := labels, confidences := confidences }
    (fun _ => rfl) (fun _ => rfl)
  exact ⟨fun k => h1 k.val k.isLt, h2, h3⟩

/-- C6: no cross-image state leakage despite buffer reuse, for every pooling
kernel that is a function of the uploaded tensor.  For a batch of two identical
images `cnn` writes `labels[0] = labels[1]` and `confidences[0] = confidences[1]`;
and for every batch and every `i < num_images` the label and confidence written at
index `i` are the ones that `cnn` writes at index `0` for the batch made of image
`i` alone, whatever the intermediate buffers and output arrays held in either
run. -/
theorem cnn_no_cross_image_leakage (exp : α → α) (kernel : Nat → Nat → Buf α → Buf α)
    (network : Nat → Buf α) (pair : Buf α)
    (hpair : ∀ q, q < 3 * 32 * 32 → pair (3 * 32 * 32 + q) = pair q)
    (images : Buf α) (num_images i : Nat) (hi : i < num_images)
    (layers layers' : Layers α) (labels labels' : Nat → Int)
    (confidences confidences' : Buf α) :
    ((cnn exp kernel pair network layers labels confidences 2).labels 0
          = (cnn exp kernel pair network layers labels confidences 2).labels 1
        ∧ (cnn exp kernel pair network layers labels confidences 2).confidences 0
          = (cnn exp kernel pair network layers labels confidences 2).confidences 1)
      ∧ ((cnn exp kernel images network layers labels confidences num_images).labels i
          = (cnn exp kernel (shift images (i * 3 * 32 * 32)) network layers' labels'
              confidences' 1).labels 0
        ∧ (cnn exp kernel images network layers labels confidences num_images).confidences i
          = (cnn exp kernel (shift images (i * 3 * 32 * 32)) network layers' labels'
              confidences' 1).confidences 0) := by
  constructor
  · apply cnn_result_agree exp kernel network pair pair layers layers labels labels
      confidences confidences 2 2 0 1 (by decide) (by decide)
    intro q hq
    simp only [shift]
    have e0 : 0 * 3 * 32 * 32 + q = q := by omega
    have e1 : 1 * 3 * 32 * 32 + q = 3 * 32 * 32 + q := by omega
    rw [e0, e1, hpair q hq]
  · apply cnn_result_agree exp kernel network images (shift images (i * 3 * 32 * 32))
      layers layers' labels labels' confidences confidences' num_images 1 i 0 hi (by decide)
    intro q _
    simp only [shift]
    have e0 : 0 * 3 * 32 * 32 + q = q := by omega
    rw [e0]

/-- C7 (as amended): argmax on a vector with a unique maximum returns that index
exactly when the maximum is positive or sits at index `0`.  For every `N`, every
`m < N` and every vector `fc` in which `fc[m] > fc[i]` for all `i < N` other than
`m`: `find_max(fc, N) = m` if and only if `fc[m] > 0` or `m = 0`. -/
theorem find_max_unique_maximum (fc : Buf α) (N m : Nat) (hm : m < N)
    (hmax : ∀ i, i < N → i ≠ m → fc i < fc m) :
    find_max fc N = m ↔ (0 < fc m ∨ m = 0) := by
  have hnonpos : fc m ≤ 0 → find_max fc N = 0 := by
    intro hle
    apply find_max_of_nonpos
    intro i hi
    by_cases him : i = m
    · rw [him]; exact hle
    · exact le_trans (le_of_lt (hmax i hi him)) hle
  have hpos : 0 < fc m → find_max fc N = m := by
    intro hp
    obtain ⟨hlt, hle, _⟩ := find_max_of_pos fc N m hm hp
    by_contra hne
    exact absurd (hmax _ hlt hne) (not_lt.mpr (hle m hm))
  constructor
  · intro h
    by_cases hp : 0 < fc m
    · exact Or.inl hp
    · right
      rw [← h]
      exact hnonpos (not_lt.mp hp)
  · rintro (hp | h0)
    · exact hpos hp
    · by_cases hp : 0 < fc m
      · exact hpos hp
      · rw [h0]
        exact hnonpos (not_lt.mp hp)

/-- C7 fails as stated: in `-2, -1` the unique maximum is at index `1`, and
`find_max` returns `0`. -/
theorem find_max_negative_maximum_counterexample :
    ex_negative 0 < ex_negative 1 ∧ find_max ex_negative 2 = 0
      ∧ find_max ex_negative 2 ≠ 1 := by
  decide

/-- C8: the zero-initialisation quirk of argmax.  For every `N ≥ 0` and every
vector `fc` with `fc[i] ≤ 0` for all `i < N`, `find_max(fc, N)` returns `0`,
wherever the largest element is. -/
theorem find_max_nonpositive_returns_zero (fc : Buf α) (N : Nat)
    (h : ∀ i, i < N → fc i ≤ 0) : find_max fc N = 0 :=
  find_max_of_nonpos fc N h

/-- C9 (as amended): in the all-non-positive case the label selection of `cnn`
(`label = find_max(fc, N)`, `confidence = fc[label]`) yields label `0` and the
confidence `fc[0]`, which is `≤ 0`. -/
theorem nonpositive_scores_label_and_confidence (fc : Buf α) (N : Nat) (hN : 1 ≤ N)
    (h : ∀ i, i < N → fc i ≤ 0) :
    find_max fc N = 0 ∧ fc (find_max fc N) = fc 0 ∧ fc (find_max fc N) ≤ 0 := by
  have h0 := find_max_of_nonpos fc N h
  rw [h0]
  exact ⟨rfl, rfl, h 0 (by omega)⟩

/-- C9 fails as stated: on `-2, -1` every score is `≤ 0`, the label is `0`, and
the confidence `fc[label]` is `-2`, not `0`. -/
theorem nonpositive_scores_confidence_counterexample :
    ex_negative 0 ≤ 0 ∧ ex_negative 1 ≤ 0 ∧ find_max ex_negative 2 = 0
      ∧ ex_negative (find_max ex_negative 2) = -2
      ∧ ex_negative (find_max ex_negative 2) ≠ 0 := by
  decide

/-- C10: the identity filter bank.  For every `D`, `N` and every input tensor of
shape `(D, N, N)`, `convolution_layer` with `D1 = D2 = D`, zero biases and the
identity filter bank gives `output[p] = max(0, input[p])` at every position
`p < D*N*N`; so `output[p] = input[p]` wherever `input[p] ≥ 0`. -/
theorem convolution_layer_identity_filter (inputs outputs : Buf α) (D N p : Nat)
    (hp : p < D * N * N) :
    convolution_layer inputs outputs (identity_filters D) (fun _ => 0) D D N p
        = max 0 (inputs p)
      ∧ (0 ≤ inputs p →
          convolution_layer inputs outputs (identity_filters D) (fun _ => 0) D D N p
            = inputs p) := by
  have hp' : p < N * N * D := by
    have e : N * N * D = D * N * N := by rw [Nat.mul_comm (N * N) D, Nat.mul_assoc]
    omega
  rw [convolution_layer_identity_apply inputs outputs D N p hp', ReLU_eq_max]
  exact ⟨rfl, fun h => max_eq_right h⟩

/-- C13 (as amended): softmax stabilisation.  For every `N ≥ 1`, every input
vector `x` and every exponential `exp` that is `1` at `0`, at most `1` on the
non-positive arguments and never negative (the real exponential, and the C
library one, which underflows), the value `max` computed by the first loop of
`softmax` is the greatest element of `x` (`max ≥ x[i]` for all `i < N`, and
`max = x[k]` for some `k < N`), and the result is
`output[i] = exp(x[i] - max) / Σ_k exp(x[k] - max)`; every exponent argument is
`≤ 0`, every exponential term lies in `[0, 1]`, and the denominator computed by
the second loop lies in `[1, N]`, so it is not zero. -/
theorem softmax_stabilised (exp : α → α) (h0 : exp 0 = 1)
    (hle : ∀ a, a ≤ 0 → exp a ≤ 1) (hnn : ∀ a, 0 ≤ exp a)
    (x : Buf α) (N : Nat) (hN : 1 ≤ N) :
    (∀ i, i < N → x i ≤ softmax_max x N)
      ∧ (∃ k, k < N ∧ softmax_max x N = x k)
      ∧ (∀ i, i < N → softmax exp x N i
          = exp (x i - softmax_max x N)
            / ∑ k in Finset.range N, exp (x k - softmax_max x N))
      ∧ (∀ i, i < N → x i - softmax_max x N ≤ 0
          ∧ 0 ≤ exp (x i - softmax_max x N) ∧ exp (x i - softmax_max x N) ≤ 1)
      ∧ softmax_sum exp x N = ∑ k in Finset.range N, exp (x k - softmax_max x N)
      ∧ 1 ≤ softmax_sum exp x N ∧ softmax_sum exp x N ≤ (N : α)
      ∧ softmax_sum exp x N ≠ 0 := by
  obtain ⟨hlo, hhi⟩ := softmax_sum_bounds_any exp h0 hle hnn x N hN
  refine ⟨fun i hi => softmax_max_ge x N i hi, softmax_max_mem x N hN, fun i hi => ?_,
    fun i hi => softmax_term_bounds exp hle hnn x N i hi,
    softmax_sum_eq exp x N, hlo, hhi, ne_of_gt (lt_of_lt_of_le one_pos hlo)⟩
  rw [softmax_apply, if_pos hi, softmax_sum_eq]

/-- C13 fails as stated: on the scores `0, 1000, 2000` the maximum is `2000`, the
exponent argument of the first score is `-2000`, and an exponential that
underflows there, as the C library `exp` does, gives the term `0`, which is not in
`(0, 1]`; `softmax` then writes `0, 0, 1`. -/
theorem softmax_term_underflow_counterexample :
    softmax_max ex_scores 3 = 2000
      ∧ ex_scores 0 - softmax_max ex_scores 3 = -2000
      ∧ ex_exp (ex_scores 0 - softmax_max ex_scores 3) = 0
      ∧ ¬ (0 < ex_exp (ex_scores 0 - softmax_max ex_scores 3))
      ∧ softmax ex_exp ex_scores 3 0 = 0
      ∧ softmax ex_exp ex_scores 3 1 = 0
      ∧ softmax ex_exp ex_scores 3 2 = 1 := by
  have hsum : softmax_sum ex_exp ex_scores 3 = 1 := by
    rw [softmax_sum_eq, ex_scores_max]
    norm_num [Finset.sum_range_succ, ex_scores, ex_exp]
  refine ⟨ex_scores_max, ?_, ?_, ?_, ?_, ?_, ?_⟩
  · rw [ex_scores_max]; norm_num [ex_scores]
  · rw [ex_scores_max]; norm_num [ex_scores, ex_exp]
  · rw [ex_scores_max]; norm_num [ex_scores, ex_exp]
  · rw [softmax_apply, if_pos (by decide), hsum, ex_scores_max]
    norm_num [ex_scores, ex_exp]
  · rw [softmax_apply, if_pos (by decide), hsum, ex_scores_max]
    norm_num [ex_scores, ex_exp]
  · rw [softmax_apply, if_pos (by decide), hsum, ex_scores_max]
    norm_num [ex_scores, ex_exp]

/-- C14: zero-initialised and minus-infinity-initialised argmax agree on
non-negative inputs.  For every `N ≥ 1` and every vector `fc` with all entries
`≥ 0`, `find_max(fc, N)` equals the result of the same scan with the running
maximum initialised to negative infinity, and it is the smallest index at which
`fc` takes its maximum. -/
theorem find_max_refines_neg_inf_scan (fc : Buf α) (N : Nat) (hN : 1 ≤ N)
    (h : ∀ i, i < N → 0 ≤ fc i) :
    find_max fc N = find_max_neg_inf fc N
      ∧ find_max fc N < N
      ∧ (∀ i, i < N → fc i ≤ fc (find_max fc N))
      ∧ ∀ i, i < find_max fc N → fc i < fc (find_max fc N) := by
  obtain ⟨a1, a2, a3⟩ := find_max_first_of_nonneg fc N hN h
  obtain ⟨b1, b2, b3⟩ := find_max_neg_inf_first fc N hN
  exact ⟨first_max_unique fc N _ _ a1 b1 a2 a3 b2 b3, a1, a2, a3⟩

/-- C18: softmax equals the unshifted reference definition.  For every `N ≥ 1` and
every real input vector `x`, `softmax` writes `exp(x[i]) / Σ_k exp(x[k])` to
`output[i]` for every `i < N`, and it writes the same values when the same
constant `c` is added to every input. -/
theorem softmax_equals_unshifted_reference (x : Buf ℝ) (N : Nat) (hN : 1 ≤ N) :
    (∀ i, i < N → softmax Real.exp x N i
        = Real.exp (x i) / ∑ k in Finset.range N, Real.exp (x k))
      ∧ ∀ (c : ℝ) i, i < N →
          softmax Real.exp (fun q => x q + c) N i = softmax Real.exp x N i := by
  refine ⟨fun i hi => softmax_unshifted x N i hi, fun c i hi => ?_⟩
  rw [softmax_unshifted _ N i hi, softmax_unshifted x N i hi]
  have hS : ∑ k in Finset.range N, Real.exp (x k + c)
      = (∑ k in Finset.range N, Real.exp (x k)) * Real.exp c := by
    rw [Finset.sum_mul]
    exact Finset.sum_congr rfl (fun k _ => Real.exp_add _ _)
  have hpos : 0 < ∑ k in Finset.range N, Real.exp (x k) :=
    Finset.sum_pos (fun k _ => Real.exp_pos _) ⟨0, Finset.mem_range.mpr (by omega)⟩
  have hc : Real.exp c ≠ 0 := ne_of_gt (Real.exp_pos c)
  have hne : (∑ k in Finset.range N, Real.exp (x k)) ≠ 0 := ne_of_gt hpos
  rw [hS, Real.exp_add]
  field_simp
  ring

/-- C19: the output range of the pipeline.  For every network, every batch and
every pooling kernel, the label that `cnn` writes for image `i < num_images`
satisfies `0 ≤ labels[i] ≤ 9` and the confidence satisfies
`1/10 ≤ confidences[i] ≤ 1`. -/
theorem cnn_label_and_confidence_range (kernel : Nat → Nat → Buf ℝ → Buf ℝ)
    (images : Buf ℝ) (network : Nat → Buf ℝ) (layers : Layers ℝ) (labels : Nat → Int)
    (confidences : Buf ℝ) (num_images i : Nat) (hi : i < num_images) :
    0 ≤ (cnn Real.exp kernel images network layers labels confidences num_images).labels i
      ∧ (cnn Real.exp kernel images network layers labels confidences num_images).labels i ≤ 9
      ∧ 1 / 10
        ≤ (cnn Real.exp kernel images network layers labels confidences num_images).confidences i
      ∧ (cnn Real.exp kernel images network layers labels confidences num_images).confidences i
        ≤ 1 :=
  cnn_output_range kernel images network
    { layers := layers, labels := labels, confidences := confidences } num_images i hi


/-- C15: shape chaining of the fixed topology.  The stage calls of one iteration
of the image loop of `cnn` are the 23 entries of `cnn_stages` (13
`convolution_layer`, 5 `pooling_layer`, 3 `fc_layer`, then `softmax` and
`find_max`).  The first reads the image slice of `3*32*32` floats; every later
stage reads the buffer that the stage before it wrote, and reads as many floats
as that stage wrote; every stage writes as many floats as its destination buffer
was allocated with; and every bounds check of every stage on its input and
output buffer passes, these checks passing exactly for buffers that hold at least
the floats the stage reads and writes. -/
theorem cnn_stages_chain_shapes (exp : α → α) (kernel : Nat → Nat → Buf α → Buf α)
    (network : Nat → Buf α) (image : Buf α) (b : Layers α) (l : Nat) :
    run_stages exp kernel network image cnn_stages (b, l)
        = (cnn_forward exp kernel network image b,
            find_max (cnn_forward exp kernel network image b).fc3 10)
      ∧ cnn_stages.length = 23
      ∧ (cnn_stages.filter (fun st =>
          match st with | .convolution_layer _ _ _ _ _ _ _ => true | _ => false)).length = 13
      ∧ (cnn_stages.filter (fun st =>
          match st with | .pooling_layer _ _ _ _ => true | _ => false)).length = 5
      ∧ (cnn_stages.filter (fun st =>
          match st with | .fc_layer _ _ _ _ _ _ => true | _ => false)).length = 3
      ∧ cnn_stages.drop 21 = [.softmax .fc3 10, .find_max .fc3 10]
      ∧ cnn_stages.head?.map Stage.src = some BufId.image
      ∧ cnn_stages.head?.map Stage.reads = some (3 * 32 * 32)
      ∧ List.Chain' (fun s t => s.dst = some t.src ∧ t.reads = s.writes) cnn_stages
      ∧ ∀ st ∈ cnn_stages,
          st.reads = cnn_alloc st.src
            ∧ (∀ d, st.dst = some d → st.writes = cnn_alloc d)
            ∧ st.in_bounds cnn_alloc = true
            ∧ ∀ size : BufId → Nat, st.in_bounds size = true
                ↔ st.reads ≤ size st.src ∧ ∀ d, st.dst = some d → st.writes ≤ size d := by
  refine ⟨cnn_forward_eq_run_stages exp kernel network image b l, by decide, by decide,
    by decide, by decide, by decide, by decide, by decide, ?_, ?_⟩
  · simp [cnn_stages, Stage.dst, Stage.src, Stage.reads, Stage.writes]
  · intro st hst
    simp only [cnn_stages, List.mem_cons, List.mem_singleton, List.not_mem_nil, or_false]
      at hst
    rcases hst with h | h | h | h | h | h | h | h | h | h | h | h | h | h | h | h | h | h | h
      | h | h | h | h <;> subst h <;>
      exact ⟨by decide, fun d hd => by cases hd <;> decide,
        Stage.in_bounds_of_extents cnn_alloc _ (fun _ _ h => by cases h <;> decide)
          (by decide) (fun d hd => by cases hd <;> decide),
        fun size => Stage.in_bounds_iff size _ (by decide)⟩

/-- C16: positional weight binding.  In the execution order of `cnn` the `k`-th
learnable layer, `k = 0..15` (the 13 convolution layers, then the 3
fully-connected layers), is called with `network[2k]` as its weights and
`network[2k+1]` as its biases; listed in call order the network entries used are
`0, 1, …, 31`, so none is used twice or left unused. -/
theorem cnn_positional_weight_binding (exp : α → α) (kernel : Nat → Nat → Buf α → Buf α)
    (network : Nat → Buf α) (image : Buf α) (b : Layers α) (l : Nat) :
    run_stages exp kernel network image cnn_stages (b, l)
        = (cnn_forward exp kernel network image b,
            find_max (cnn_forward exp kernel network image b).fc3 10)
      ∧ cnn_stages.filterMap Stage.binding
          = (List.range 16).map (fun k => (2 * k, 2 * k + 1))
      ∧ ((cnn_stages.filter (fun st => st.binding.isSome)).map (fun st =>
          match st with
          | .convolution_layer _ _ _ _ _ _ _ => 0
          | .fc_layer _ _ _ _ _ _ => 1
          | _ => 2)) = List.replicate 13 0 ++ List.replicate 3 1
      ∧ ((cnn_stages.filterMap Stage.binding).map (fun p => [p.1, p.2])).flatten
          = List.range 32 :=
  ⟨cnn_forward_eq_run_stages exp kernel network image b l, by decide, by decide, by decide⟩

/-- C17: the dispatch geometry of pooling.  `pooling_layer(inputs, outputs, D, N)`
uploads exactly `D*(2N)*(2N)` floats, reads back exactly `D*N*N` floats, and
dispatches the 3-dimensional global grid `(D, 2N, 2N)` with work-group size
`(64, 1, 1)`; the 5 pooling calls of `cnn` have `(D, N)` =
`(64,16), (128,8), (256,4), (512,2), (512,1)`, and for each of them every global
dimension is a positive multiple of the work-group dimension. -/
theorem pooling_layer_dispatch_geometry (kernel : Nat → Nat → Buf α → Buf α)
    (inputs outputs : Buf α) (D N : Nat) :
    (pooling_layer_dispatch D N).upload_floats = D * (2 * N) * (2 * N)
      ∧ (pooling_layer_dispatch D N).readback_floats = D * N * N
      ∧ (pooling_layer_dispatch D N).work_dim = 3
      ∧ (pooling_layer_dispatch D N).global_size = [D, 2 * N, 2 * N]
      ∧ (pooling_layer_dispatch D N).local_size = [64, 1, 1]
      ∧ pooling_layer kernel inputs outputs D N
          = (fun q => if q < (pooling_layer_dispatch D N).readback_floats then
              kernel D N (fun q =>
                if q < (pooling_layer_dispatch D N).upload_floats then inputs q else 0) q
            else outputs q)
      ∧ cnn_stages.filterMap Stage.pooling_args
          = [(64, 16), (128, 8), (256, 4), (512, 2), (512, 1)]
      ∧ ∀ c ∈ cnn_stages.filterMap Stage.pooling_args,
          List.Forall₂ (fun g w => 0 < g ∧ w ∣ g)
            (pooling_layer_dispatch c.1 c.2).global_size
            (pooling_layer_dispatch c.1 c.2).local_size := by
  refine ⟨?_, rfl, rfl, ?_, rfl, rfl, by decide, ?_⟩
  · simp only [pooling_layer_dispatch, Nat.mul_comm N 2]
  · simp only [pooling_layer_dispatch, Nat.mul_comm N 2]
  · intro c hc
    have e : cnn_stages.filterMap Stage.pooling_args
        = [(64, 16), (128, 8), (256, 4), (512, 2), (512, 1)] := by decide
    rw [e] at hc
    simp only [List.mem_cons, List.mem_singleton, List.not_mem_nil, or_false] at hc
    rcases hc with h | h | h | h | h <;> subst h <;>
      simp [pooling_layer_dispatch] <;> decide


/-- C11 fails on the code: `alloc_layer` returns the result of `malloc` untested
and `cnn` tests none of the 21 results.  When the first allocation (`c1_1`)
fails and the batch has one image, the first `convolution_layer` call is handed
the null `c1_1`; when every allocation fails and the batch is empty, `cnn`
returns; and no run of `cnn` prints a diagnostic and exits. -/
theorem cnn_runs_stage_on_null_buffer :
    alloc_layer (fun _ => none) (64 * 32 * 32) = none
      ∧ cnn_host (fun id _ => if id = BufId.c1_1 then none else some 4096) (some 4096) 1
          = HostRun.null_access (.convolution_layer .image .c1_1 0 1 64 3 32)
      ∧ cnn_host (fun _ _ => none) (some 4096) 0 = HostRun.returned
      ∧ ∀ (heap : BufId → Nat → Option Nat) (images : Option Nat) (num_images : Nat),
          cnn_host heap images num_images ≠ HostRun.exit_failure :=
  ⟨rfl, by decide, by decide, cnn_host_never_exits⟩

/-- C12 fails on the code: `pooling_layer` discards the status codes of `clFinish`
and of the two `clReleaseMemObject` calls.  When `clFinish` (or a
`clReleaseMemObject`) returns a non-success code and every other call succeeds,
`pooling_layer` makes all its eleven device calls and returns normally, whereas
a failing `clEnqueueReadBuffer`, which is checked, ends the run there. -/
theorem pooling_layer_returns_after_failed_call :
    pooling_layer_calls (fun c => if c = ClCall.clFinish then -36 else CL_SUCCESS)
        = { made := [.clCreateBuffer_input, .clCreateBuffer_output, .clSetKernelArg 0,
              .clSetKernelArg 1, .clSetKernelArg 2, .clSetKernelArg 3,
              .clEnqueueNDRangeKernel, .clEnqueueReadBuffer, .clFinish,
              .clReleaseMemObject_input, .clReleaseMemObject_output],
            exited := false }
      ∧ (pooling_layer_calls
          (fun c => if c = ClCall.clReleaseMemObject_input then -38 else CL_SUCCESS)).exited
          = false
      ∧ (pooling_layer_calls
          (fun c => if c = ClCall.clEnqueueReadBuffer then -5 else CL_SUCCESS))
          = { made := [.clCreateBuffer_input, .clCreateBuffer_output, .clSetKernelArg 0,
                .clSetKernelArg 1, .clSetKernelArg 2, .clSetKernelArg 3,
                .clEnqueueNDRangeKernel, .clEnqueueReadBuffer],
              exited := true } := by
  decide

/-- C20 fails on the code: the test after `_open` is `if (!fd)`, which is true
for the descriptor `0` and false for `-1`.  When `_open` fails and returns `-1`,
`GetSourceCode` prints no "Failed to open" diagnostic and goes on to `_lseek`,
`malloc`, `_read` and `_close` with the descriptor `-1`; when `_open` returns the
valid descriptor `0` it prints the diagnostic and exits. -/
theorem GetSourceCode_misses_open_failure :
    GetSourceCode (-1) true
        = { ops := [.lseek (-1), .malloc, .lseek (-1), .read (-1), .close (-1)],
            failed_to_open := false, exited := false }
      ∧ GetSourceCode (-1) false
        = { ops := [.lseek (-1), .malloc], failed_to_open := false, exited := true }
      ∧ GetSourceCode 0 true = { ops := [], failed_to_open := true, exited := true } := by
  decide


/-! ## Witnesses -/

theorem convolution_layer_computes_padded_correlation_witness :
    ((0 : Nat) < 1 ∧ (0 : Nat) < 2 ∧ (0 : Nat) < 2)
      ∧ convolution_layer ex_ramp (ex_const 7) ex_ramp (ex_const 1) 1 1 2 0 = 78 := by
  refine ⟨⟨by decide, by decide, by decide⟩, ?_⟩
  have h := (convolution_layer_computes_padded_correlation ex_ramp (ex_const 7) ex_ramp
    (ex_const 1) 1 1 2 0 0 0 (by decide) (by decide) (by decide)).1
  have e2 : Int.toNat 2 = 2 := rfl
  have e3 : Int.toNat 3 = 3 := rfl
  norm_num [Finset.sum_range_succ, ex_ramp, ex_const, e2, e3] at h
  exact h

theorem softmax_is_probability_distribution_witness :
    (1 ≤ 3)
      ∧ ((∀ i, i < 3 → 0 < softmax Real.exp (fun q => (q : ℝ) * 1000) 3 i)
        ∧ ∑ i in Finset.range 3, softmax Real.exp (fun q => (q : ℝ) * 1000) 3 i = 1) :=
  ⟨by decide, softmax_is_probability_distribution (fun q => (q : ℝ) * 1000) 3 (by decide)⟩

theorem find_max_selects_maximum_witness :
    ((1 ≤ 2) ∧ ∀ i, i < 2 → 0 < ex_positive i)
      ∧ find_max ex_positive 2 < 2
      ∧ ∀ i, i < 2 → ex_positive i ≤ ex_positive (find_max ex_positive 2) :=
  ⟨⟨by decide, by decide⟩,
    (find_max_selects_maximum ex_positive 2 (by decide) (by decide) id max_pooling ex_ramp
      (fun _ => ex_const 0) 0
      { layers := ex_layers 0, labels := fun _ => 0, confidences := ex_const 0 }).1,
    (find_max_selects_maximum ex_positive 2 (by decide) (by decide) id max_pooling ex_ramp
      (fun _ => ex_const 0) 0
      { layers := ex_layers 0, labels := fun _ => 0, confidences := ex_const 0 }).2.1⟩

theorem cnn_no_cross_image_leakage_witness :
    ((∀ q, q < 3 * 32 * 32 → ex_const 1 (3 * 32 * 32 + q) = ex_const 1 q) ∧ 0 < 1)
      ∧ (cnn id max_pooling ex_ramp (fun _ => ex_const 0) (ex_layers 0) (fun _ => 0)
            (ex_const 0) 1).labels 0
          = (cnn id max_pooling (shift ex_ramp (0 * 3 * 32 * 32)) (fun _ => ex_const 0)
              (ex_layers 5) (fun _ => 7) (ex_const 9) 1).labels 0 :=
  ⟨⟨fun _ _ => rfl, by decide⟩,
    (cnn_no_cross_image_leakage id max_pooling (fun _ => ex_const 0) (ex_const 1)
      (fun _ _ => rfl) ex_ramp 1 0 (by decide) (ex_layers 0) (ex_layers 5)
      (fun _ => 0) (fun _ => 7) (ex_const 0) (ex_const 9)).2.1⟩

theorem find_max_unique_maximum_witness :
    ((1 < 3) ∧ (∀ i, i < 3 → i ≠ 1 → ex_positive i < ex_positive 1))
      ∧ (find_max ex_positive 3 = 1 ↔ (0 < ex_positive 1 ∨ 1 = 0)) :=
  ⟨⟨by decide, by decide⟩, find_max_unique_maximum ex_positive 3 1 (by decide) (by decide)⟩

theorem find_max_nonpositive_returns_zero_witness :
    (∀ i, i < 3 → ex_negative i ≤ 0) ∧ find_max ex_negative 3 = 0 :=
  ⟨by decide, find_max_nonpositive_returns_zero ex_negative 3 (by decide)⟩

theorem nonpositive_scores_label_and_confidence_witness :
    ((1 ≤ 3) ∧ ∀ i, i < 3 → ex_negative i ≤ 0)
      ∧ (find_max ex_negative 3 = 0
        ∧ ex_negative (find_max ex_negative 3) = ex_negative 0
        ∧ ex_negative (find_max ex_negative 3) ≤ 0) :=
  ⟨⟨by decide, by decide⟩,
    nonpositive_scores_label_and_confidence ex_negative 3 (by decide) (by decide)⟩

theorem convolution_layer_identity_filter_witness :
    (3 < 1 * 2 * 2)
      ∧ (convolution_layer ex_ramp (ex_const 7) (identity_filters 1) (fun _ => 0) 1 1 2 3
          = max 0 (ex_ramp 3)
        ∧ (0 ≤ ex_ramp 3 →
            convolution_layer ex_ramp (ex_const 7) (identity_filters 1) (fun _ => 0) 1 1 2 3
              = ex_ramp 3)) :=
  ⟨by decide, convolution_layer_identity_filter ex_ramp (ex_const 7) 1 2 3 (by decide)⟩

theorem softmax_stabilised_witness :
    (ex_exp 0 = 1 ∧ (∀ a, a ≤ 0 → ex_exp a ≤ 1) ∧ (∀ a, 0 ≤ ex_exp a) ∧ 1 ≤ 3)
      ∧ (∀ i, i < 3 → ex_scores i - softmax_max ex_scores 3 ≤ 0
          ∧ 0 ≤ ex_exp (ex_scores i - softmax_max ex_scores 3)
          ∧ ex_exp (ex_scores i - softmax_max ex_scores 3) ≤ 1)
      ∧ 1 ≤ softmax_sum ex_exp ex_scores 3
      ∧ softmax_sum ex_exp ex_scores 3 ≤ ((3 : Nat) : ℚ)
      ∧ (Real.exp 0 = 1 ∧ (∀ a : ℝ, a ≤ 0 → Real.exp a ≤ 1) ∧ (∀ a : ℝ, 0 ≤ Real.exp a))
      ∧ 1 ≤ softmax_sum Real.exp (fun q => (q : ℝ) * 1000) 3 :=
  ⟨⟨ex_exp_zero, ex_exp_le_one, ex_exp_nonneg, by decide⟩,
    (softmax_stabilised ex_exp ex_exp_zero ex_exp_le_one ex_exp_nonneg ex_scores 3
      (by decide)).2.2.2.1,
    (softmax_stabilised ex_exp ex_exp_zero ex_exp_le_one ex_exp_nonneg ex_scores 3
      (by decide)).2.2.2.2.2.1,
    (softmax_stabilised ex_exp ex_exp_zero ex_exp_le_one ex_exp_nonneg ex_scores 3
      (by decide)).2.2.2.2.2.2.1,
    ⟨Real.exp_zero, fun a ha => Real.exp_le_one_iff.mpr ha, fun a => le_of_lt (Real.exp_pos a)⟩,
    (softmax_stabilised Real.exp Real.exp_zero (fun a ha => Real.exp_le_one_iff.mpr ha)
      (fun a => le_of_lt (Real.exp_pos a)) (fun q => (q : ℝ) * 1000) 3
      (by decide)).2.2.2.2.2.1⟩

theorem find_max_refines_neg_inf_scan_witness :
    ((1 ≤ 3) ∧ ∀ i, i < 3 → 0 ≤ ex_positive i)
      ∧ find_max ex_positive 3 = find_max_neg_inf ex_positive 3 :=
  ⟨⟨by decide, by decide⟩,
    (find_max_refines_neg_inf_scan ex_positive 3 (by decide) (by decide)).1⟩

theorem softmax_equals_unshifted_reference_witness :
    (1 ≤ 2)
      ∧ ∀ i, i < 2 → softmax Real.exp (fun q => (q : ℝ)) 2 i
          = Real.exp (i : ℝ) / ∑ k in Finset.range 2, Real.exp (k : ℝ) :=
  ⟨by decide, (softmax_equals_unshifted_reference (fun q => (q : ℝ)) 2 (by decide)).1⟩

theorem cnn_label_and_confidence_range_witness :
    (0 < 1)
      ∧ (0 ≤ (cnn Real.exp max_pooling (fun q => (q : ℝ)) (fun _ q => (q : ℝ))
            (layers_all (fun _ => 0)) (fun _ => 0) (fun _ => 0) 1).labels 0
        ∧ (cnn Real.exp max_pooling (fun q => (q : ℝ)) (fun _ q => (q : ℝ))
            (layers_all (fun _ => 0)) (fun _ => 0) (fun _ => 0) 1).labels 0 ≤ 9) :=
  ⟨by decide,
    (cnn_label_and_confidence_range max_pooling (fun q => (q : ℝ)) (fun _ q => (q : ℝ))
      (layers_all (fun _ => 0)) (fun _ => 0) (fun _ => 0) 1 0 (by decide)).1,
    (cnn_label_and_confidence_range max_pooling (fun q => (q : ℝ)) (fun _ q => (q : ℝ))
      (layers_all (fun _ => 0)) (fun _ => 0) (fun _ => 0) 1 0 (by decide)).2.1⟩


end Claims

end CNN
